/-
  Verification development for the warehouse order-picking planner
  (2-D pallet packing with Empty-Maximal-Space regions, Clarke-Wright
  routing, LPT picker assignment, simulated-annealing improvement).

  The definitions below are a shallow embedding of the Python sources:
    ems.py, item.py, pallet.py, palletization.py, clarke_wright.py,
    routing.py, assignment.py, sa_improvement_routing.py.
  Machine floats of the source are modelled as exact rationals; the
  Euclidean candidate score np.hypot(a, b) of pallet.py is modelled by
  the squared distance a^2 + b^2, which induces the same strict
  comparison order on nonnegative values.
-/
import Mathlib

namespace Thesis

/-- Empty Maximal Space region (ems.py).  The constructor of the source
also stores a derived `area` attribute equal to `length * width`; the
fields of an EMS are never mutated, so the attribute is modelled by the
function `EMS.area` below. -/
structure EMS where
  x : Int
  y : Int
  length : Int
  width : Int
deriving DecidableEq, Repr

/-- Derived area attribute of ems.py. -/
def EMS.area (e : EMS) : Int := e.length * e.width

/-- Item (item.py).  `x` and `y` are `none` until the item is placed. -/
structure Item where
  item_id : Nat := 0
  order_id : Option Nat := none
  length : Int
  width : Int
  x : Option Int := none
  y : Option Int := none
  rotated : Bool := false
deriving DecidableEq, Repr

/-- Item.rotate of item.py: swap length and width, toggle the flag. -/
def Item.rotate (i : Item) : Item :=
  { i with length := i.width, width := i.length, rotated := !i.rotated }

/-- Derived area property of item.py. -/
def Item.area (i : Item) : Int := i.length * i.width

/-- Pallet (pallet.py).  The run-time state of one pallet. -/
structure Pallet where
  id : Nat
  length : Int
  width : Int
  items : List Item
  ems_list : List EMS
  occupied_area : Int
  free_area : Int
deriving DecidableEq, Repr

/-- Pallet.__init__ of pallet.py (default dimensions 120 x 100). -/
def freshPallet (pallet_id : Nat) (length : Int := 120) (width : Int := 100) : Pallet :=
  { id := pallet_id, length := length, width := width, items := [],
    ems_list := [⟨0, 0, length, width⟩], occupied_area := 0,
    free_area := length * width }

/-- The candidate dictionary built by Pallet.find_best_position.  The
source dict also stores a reference to the chosen EMS region, which no
caller reads; it is not modelled. -/
structure Candidate where
  x : Int
  y : Int
  width : Int
  height : Int
  rotated : Bool
deriving DecidableEq, Repr

/-- Inner loop body of Pallet.find_best_position for one orientation:
if the oriented footprint fits the region, score it by the (squared)
distance from the footprint far corner to the pallet far corner and
keep it when the score strictly exceeds the best one so far. -/
def fbFold (palletLength palletWidth itemW itemH : Int) (rotated : Bool)
    (acc : Int × Option Candidate) (e : EMS) : Int × Option Candidate :=
  if itemW ≤ e.length ∧ itemH ≤ e.width then
    let d := (palletLength - (e.x + itemW)) ^ 2 + (palletWidth - (e.y + itemH)) ^ 2
    if acc.1 < d then (d, some ⟨e.x, e.y, itemW, itemH, rotated⟩) else acc
  else acc

/-- Pallet.find_best_position: try the unrotated orientation over every
EMS region, then the rotated one, starting from the sentinel score -1. -/
def findBestPosition (p : Pallet) (item : Item) : Option Candidate :=
  let acc1 := p.ems_list.foldl (fbFold p.length p.width item.length item.width false) (-1, none)
  let acc2 := p.ems_list.foldl (fbFold p.length p.width item.width item.length true) acc1
  acc2.2

/-- Axis-aligned bounding-box overlap test between two placed items
(the loop body of Pallet.check_overlap).  Coordinates are read the way
the source reads them; every call site has them set. -/
def itemsOverlapB (a b : Item) : Bool :=
  !(decide (a.x.getD 0 + a.length ≤ b.x.getD 0) ||
    decide (b.x.getD 0 + b.length ≤ a.x.getD 0) ||
    decide (a.y.getD 0 + a.width ≤ b.y.getD 0) ||
    decide (b.y.getD 0 + b.width ≤ a.y.getD 0))

/-- Pallet.check_overlap: does the new item overlap any placed item? -/
def checkOverlap (p : Pallet) (item : Item) : Bool :=
  p.items.any (fun existing => itemsOverlapB item existing)

/-- Pallet.clip_ems_by_item: update one EMS region with respect to a
newly placed item (cases: full cover, no overlap, left intrusion,
bottom intrusion, interior L-shape split; the 10-unit minimum rule is
applied to each freshly created edge). -/
def clipEmsByItem (ems : EMS) (item : Item) : List EMS :=
  let ex := ems.x; let ey := ems.y; let ew := ems.length; let eh := ems.width
  let ix := item.x.getD 0; let iy := item.y.getD 0
  let iw := item.length; let ih := item.width
  if ix ≤ ex ∧ iy ≤ ey ∧ ex + ew ≤ ix + iw ∧ ey + eh ≤ iy + ih then
    []
  else if ix + iw ≤ ex ∨ ex + ew ≤ ix ∨ iy + ih ≤ ey ∨ ey + eh ≤ iy then
    [ems]
  else
    (if ix ≤ ex ∧ ex < ix + iw then
        (if 10 ≤ (ex + ew) - (ix + iw) then [⟨ix + iw, ey, (ex + ew) - (ix + iw), eh⟩] else [])
      else []) ++
    (if iy ≤ ey ∧ ey < iy + ih then
        (if 10 ≤ (ey + eh) - (iy + ih) then [⟨ex, iy + ih, ew, (ey + eh) - (iy + ih)⟩] else [])
      else []) ++
    (if ex < ix ∧ ey < iy then
        (if 10 ≤ (ex + ew) - ix then [⟨ix, ey, (ex + ew) - ix, eh⟩] else []) ++
        (if 10 ≤ (ey + eh) - iy then [⟨ex, iy, ew, (ey + eh) - iy⟩] else [])
      else [])

/-- Coordinate containment of one EMS region in another (the dominance
test inside Pallet.prune_ems_list). -/
def containedInB (e o : EMS) : Bool :=
  decide (o.x ≤ e.x) && decide (o.y ≤ e.y) &&
  decide (e.x + e.length ≤ o.x + o.length) &&
  decide (e.y + e.width ≤ o.y + o.width)

/-- Pallet.prune_ems_list: drop regions with an edge below 10, and drop
a region when it is contained in another entry of the input list.  The
source compares entries by object identity (`ems == other_ems` on
objects without custom equality), which the position index models. -/
def pruneEmsList (lst : List EMS) : List EMS :=
  (lst.enum.filter (fun p =>
      decide (10 ≤ p.2.length) && decide (10 ≤ p.2.width) &&
      !(lst.enum.any (fun q => decide (q.1 ≠ p.1) && containedInB p.2 q.2)))).map Prod.snd

/-- The mutation place_item applies to the item after a candidate is
found: rotate when the candidate is the rotated orientation, then store
the placement coordinates. -/
def applyCandidate (item : Item) (c : Candidate) : Item :=
  let item1 := if c.rotated then item.rotate else item
  { item1 with x := some c.x, y := some c.y }

/-- Pallet.place_item.  Returns (success flag, updated pallet, item as
the call leaves it); the source mutates both objects in place. -/
def placeItem (p : Pallet) (item : Item) : Bool × Pallet × Item :=
  match findBestPosition p item with
  | none => (false, p, item)
  | some c =>
    let item2 := applyCandidate item c
    if checkOverlap p item2 then (false, p, item2)
    else
      let newEms := p.ems_list.flatMap (fun e => clipEmsByItem e item2)
      (true,
       { p with items := p.items ++ [item2],
                occupied_area := p.occupied_area + item2.length * item2.width,
                free_area := p.free_area - item2.length * item2.width,
                ems_list := pruneEmsList newEms },
       item2)

/-- Pallet.try_place_item: try one orientation, then the rotated one,
rotating back on total failure. -/
def tryPlaceItem (p : Pallet) (item : Item) : Bool × Pallet × Item :=
  match placeItem p item with
  | (true, p1, i1) => (true, p1, i1)
  | (false, _, i1) =>
    match placeItem p i1.rotate with
    | (true, p2, i2) => (true, p2, i2)
    | (false, _, i2) => (false, p, i2.rotate)

/-- Pallet states reachable from a freshly constructed pallet by
successful place_item calls (try_place_item only reaches states of this
shape, since its failed inner calls leave the pallet unchanged). -/
inductive Reachable : Pallet → Prop where
  | fresh (pallet_id : Nat) (length width : Int) :
      Reachable (freshPallet pallet_id length width)
  | step {p p1 : Pallet} {item item1 : Item} :
      Reachable p → placeItem p item = (true, p1, item1) → Reachable p1

end Thesis

namespace Thesis

/-- Free-rectangle/item disjointness, phrased exactly as the negation of
the bounding-box overlap test of pallet.py. -/
def emsItemDisjoint (e : EMS) (it : Item) : Prop :=
  it.x.getD 0 + it.length ≤ e.x ∨ e.x + e.length ≤ it.x.getD 0 ∨
  it.y.getD 0 + it.width ≤ e.y ∨ e.y + e.width ≤ it.y.getD 0

/-- Strict incomparability of the bottom-left corners of two regions. -/
def incomp (a b : EMS) : Prop :=
  (a.x < b.x ∧ b.y < a.y) ∨ (b.x < a.x ∧ a.y < b.y)

/-- The reachable-state invariant of a pallet: every EMS region is
anchored at the far (top-right) pallet corner, the bottom-left corners
of the regions are pairwise strictly incomparable, and every region is
disjoint from every committed item. -/
def Inv (p : Pallet) : Prop :=
  (∀ e ∈ p.ems_list, e.x + e.length = p.length ∧ e.y + e.width = p.width) ∧
  p.ems_list.Pairwise incomp ∧
  (∀ e ∈ p.ems_list, ∀ it ∈ p.items, emsItemDisjoint e it)

lemma incomp_symm : Symmetric incomp := by
  intro a b h
  rcases h with ⟨h1, h2⟩ | ⟨h1, h2⟩
  · exact Or.inr ⟨h1, h2⟩
  · exact Or.inl ⟨h1, h2⟩

lemma containedInB_refl (e : EMS) : containedInB e e = true := by
  simp [containedInB]

/-- Membership characterization of prune_ems_list: an element survives
precisely when some occurrence of it passes the size filter and is not
contained in the entry at any other index. -/
lemma mem_pruneEmsList_iff {lst : List EMS} {e : EMS} :
    e ∈ pruneEmsList lst ↔
      ∃ i, lst.get? i = some e ∧ 10 ≤ e.length ∧ 10 ≤ e.width ∧
        ∀ j o, lst.get? j = some o → j ≠ i → containedInB e o = false := by
  unfold pruneEmsList
  constructor
  · intro h
    rcases List.mem_map.1 h with ⟨⟨i, a⟩, hmem, rfl⟩
    rcases (List.mem_filter).1 hmem with ⟨henum, hP⟩
    have hget : lst.get? i = some a := List.mem_enum_iff_get?.1 henum
    simp only [Bool.and_eq_true, decide_eq_true_eq, Bool.not_eq_true',
      List.any_eq_false] at hP
    refine ⟨i, hget, hP.1.1, hP.1.2, ?_⟩
    intro j o hj hne
    have h2 := hP.2 (j, o) (List.mem_enum_iff_get?.2 hj)
    by_contra hcb
    rw [Bool.not_eq_false] at hcb
    exact h2 ⟨hne, hcb⟩
  · rintro ⟨i, hget, h10a, h10b, hall⟩
    refine List.mem_map.2 ⟨(i, e), ?_, rfl⟩
    refine (List.mem_filter).2 ⟨List.mem_enum_iff_get?.2 hget, ?_⟩
    simp only [Bool.and_eq_true, decide_eq_true_eq, Bool.not_eq_true',
      List.any_eq_false]
    refine ⟨⟨h10a, h10b⟩, ?_⟩
    rintro ⟨j, o⟩ hjo ⟨hne, hcb⟩
    have hj : lst.get? j = some o := List.mem_enum_iff_get?.1 hjo
    rw [hall j o hj hne] at hcb
    exact absurd hcb (by simp)

lemma pruneEmsList_subset {lst : List EMS} {e : EMS} (h : e ∈ pruneEmsList lst) :
    e ∈ lst := by
  rcases mem_pruneEmsList_iff.1 h with ⟨i, hget, -⟩
  exact List.get?_mem hget

lemma pruneEmsList_big {lst : List EMS} {e : EMS} (h : e ∈ pruneEmsList lst) :
    10 ≤ e.length ∧ 10 ≤ e.width := by
  rcases mem_pruneEmsList_iff.1 h with ⟨i, -, h1, h2, -⟩
  exact ⟨h1, h2⟩

lemma pruneEmsList_not_contained {lst : List EMS} {e o : EMS}
    (h : e ∈ pruneEmsList lst) (ho : o ∈ lst) (hne : o ≠ e) :
    containedInB e o = false := by
  rcases mem_pruneEmsList_iff.1 h with ⟨i, hget, -, -, hall⟩
  rcases List.mem_iff_get?.1 ho with ⟨j, hj⟩
  have hji : j ≠ i := by
    intro hrfl
    rw [hrfl, hget] at hj
    exact hne (Option.some_injective _ hj).symm
  exact hall j o hj hji

end Thesis

namespace Thesis

lemma enum_nodup (lst : List EMS) : lst.enum.Nodup := by
  have hfst : (lst.enum.map Prod.fst).Nodup := by
    rw [List.enum_map_fst]
    exact List.nodup_range _
  exact List.Nodup.of_map _ hfst

/-- Two distinct survivors of prune_ems_list are never equal as values:
a duplicated region would be contained in its own other copy. -/
lemma pruneEmsList_nodup (lst : List EMS) : (pruneEmsList lst).Nodup := by
  unfold pruneEmsList
  refine List.Nodup.map_on ?_ ?_
  · rintro ⟨i, a⟩ hia ⟨j, b⟩ hjb (hab : a = b)
    subst hab
    rcases (List.mem_filter).1 hia with ⟨hia', hPa⟩
    rcases (List.mem_filter).1 hjb with ⟨hjb', -⟩
    simp only [Bool.and_eq_true, decide_eq_true_eq, Bool.not_eq_true',
      List.any_eq_false] at hPa
    by_cases hij : i = j
    · simp [hij]
    · exact absurd ⟨Ne.symm hij, containedInB_refl a⟩ (hPa.2 (j, a) hjb')
  · exact List.Sublist.nodup (List.filter_sublist _) (enum_nodup lst)

/-- For far-corner anchored regions the dominance test degenerates to
corner dominance, so mutual non-containment gives strict corner
incomparability. -/
lemma incomp_of_corner_not_contained {palletL palletW : Int} {a b : EMS}
    (ha : a.x + a.length = palletL ∧ a.y + a.width = palletW)
    (hb : b.x + b.length = palletL ∧ b.y + b.width = palletW)
    (hab : containedInB a b = false) (hba : containedInB b a = false)
    (hne : a ≠ b) :
    incomp a b := by
  simp only [containedInB, Bool.and_eq_false_iff, decide_eq_false_iff_not,
    not_le] at hab hba
  unfold incomp
  rcases ha with ⟨ha1, ha2⟩
  rcases hb with ⟨hb1, hb2⟩
  omega

/-- After pruning a list of far-corner anchored regions, the surviving
corners are pairwise strictly incomparable. -/
lemma pruneEmsList_pairwise_incomp {palletL palletW : Int} {lst : List EMS}
    (hc : ∀ e ∈ lst, e.x + e.length = palletL ∧ e.y + e.width = palletW) :
    (pruneEmsList lst).Pairwise incomp := by
  have hnd : (pruneEmsList lst).Nodup := pruneEmsList_nodup lst
  refine List.Pairwise.imp_of_mem ?_ hnd
  intro a b ha hb hne
  have hal : a ∈ lst := pruneEmsList_subset ha
  have hbl : b ∈ lst := pruneEmsList_subset hb
  have h1 : containedInB a b = false :=
    pruneEmsList_not_contained ha hbl (Ne.symm hne)
  have h2 : containedInB b a = false :=
    pruneEmsList_not_contained hb hal hne
  exact incomp_of_corner_not_contained (hc a hal) (hc b hbl) h1 h2 hne

end Thesis

namespace Thesis

/-- Every output of clip_ems_by_item keeps the far corner of its parent
region and stays inside it. -/
lemma clipEmsByItem_corner_sub {e : EMS} {it : Item} {r : EMS}
    (hr : r ∈ clipEmsByItem e it) :
    (r.x + r.length = e.x + e.length ∧ r.y + r.width = e.y + e.width) ∧
    (e.x ≤ r.x ∧ e.y ≤ r.y) := by
  simp only [clipEmsByItem] at hr
  split at hr
  · simp at hr
  · split at hr
    · simp only [List.mem_singleton] at hr
      subst hr
      omega
    · simp only [List.mem_append, List.mem_ite_nil_right, List.mem_singleton] at hr
      rcases hr with (⟨h3, h10, rfl⟩ | ⟨h4, h10, rfl⟩) | ⟨h5g, ⟨h10, rfl⟩ | ⟨h10, rfl⟩⟩ <;>
        dsimp only <;> omega

/-- When the placed footprint sits at the bottom-left corner of a region
whose corner is not strictly above-right of the parent corner, every
clip output is disjoint from the footprint (the interior L-split case
cannot fire). -/
lemma clipEmsByItem_disjoint {e : EMS} {it : Item} {r : EMS}
    (hr : r ∈ clipEmsByItem e it)
    (h5 : ¬(e.x < it.x.getD 0 ∧ e.y < it.y.getD 0)) :
    emsItemDisjoint r it := by
  simp only [clipEmsByItem] at hr
  unfold emsItemDisjoint
  split at hr
  · simp at hr
  · split at hr
    · rename_i hnover
      simp only [List.mem_singleton] at hr
      subst hr
      omega
    · simp only [List.mem_append, List.mem_ite_nil_right, List.mem_singleton] at hr
      rcases hr with (⟨h3, h10, rfl⟩ | ⟨h4, h10, rfl⟩) | hemp
      · dsimp only
        omega
      · dsimp only
        omega
      · exact absurd hemp (List.not_mem_nil r)

/-- Transfer of item disjointness along region inclusion. -/
lemma emsItemDisjoint_of_sub {r e : EMS} {it : Item}
    (hsub : (r.x + r.length = e.x + e.length ∧ r.y + r.width = e.y + e.width) ∧
            (e.x ≤ r.x ∧ e.y ≤ r.y))
    (hd : emsItemDisjoint e it) : emsItemDisjoint r it := by
  unfold emsItemDisjoint at hd ⊢
  omega

end Thesis

namespace Thesis

/-- Generic specification-preservation for the find_best_position fold:
any candidate produced comes from a fitting region of the scanned list,
with the orientation dimensions of the fold. -/
lemma foldl_fbFold_spec (palletL palletW w h : Int) (rot : Bool)
    (P : Candidate → Prop) :
    ∀ (l : List EMS),
      (∀ e ∈ l, w ≤ e.length ∧ h ≤ e.width → P ⟨e.x, e.y, w, h, rot⟩) →
      ∀ (acc : Int × Option Candidate),
      (∀ c, acc.2 = some c → P c) →
      ∀ c, (l.foldl (fbFold palletL palletW w h rot) acc).2 = some c → P c := by
  intro l
  induction l with
  | nil => intro _ acc hacc c hc; exact hacc c hc
  | cons e tl ih =>
    intro hnew acc hacc c hc
    refine ih (fun x hx hfit => hnew x (List.mem_cons_of_mem e hx) hfit)
      (fbFold palletL palletW w h rot acc e) ?_ c hc
    intro c1 hc1
    unfold fbFold at hc1
    split at hc1
    · rename_i hfit
      dsimp only at hc1
      split at hc1
      · have : some _ = some c1 := hc1
        have hceq := Option.some_injective _ this
        rw [← hceq]
        exact hnew e (List.mem_cons_self e tl) hfit
      · exact hacc c1 hc1
    · exact hacc c1 hc1

/-- The specification of a candidate returned by find_best_position:
it sits at the bottom-left corner of one of the pallet regions, its
footprint fits that region, and its dimensions are the item dimensions
in the orientation recorded by the rotated flag. -/
def candSpec (p : Pallet) (item : Item) (c : Candidate) : Prop :=
  (∃ e ∈ p.ems_list, c.x = e.x ∧ c.y = e.y ∧ c.width ≤ e.length ∧ c.height ≤ e.width) ∧
  c.width = (if c.rotated then item.width else item.length) ∧
  c.height = (if c.rotated then item.length else item.width)

lemma findBestPosition_spec {p : Pallet} {item : Item} {c : Candidate}
    (hc : findBestPosition p item = some c) : candSpec p item c := by
  unfold findBestPosition at hc
  refine foldl_fbFold_spec p.length p.width item.width item.length true
    (candSpec p item) p.ems_list ?_ _ ?_ c hc
  · intro e he hfit
    exact ⟨⟨e, he, rfl, rfl, hfit.1, hfit.2⟩, rfl, rfl⟩
  · intro c1 hc1
    refine foldl_fbFold_spec p.length p.width item.length item.width false
      (candSpec p item) p.ems_list ?_ _ ?_ c1 hc1
    · intro e he hfit
      exact ⟨⟨e, he, rfl, rfl, hfit.1, hfit.2⟩, rfl, rfl⟩
    · intro c2 hc2
      simp at hc2

end Thesis

namespace Thesis

lemma applyCandidate_fields (item : Item) (c : Candidate) :
    (applyCandidate item c).x = some c.x ∧ (applyCandidate item c).y = some c.y ∧
    (applyCandidate item c).length = (if c.rotated then item.width else item.length) ∧
    (applyCandidate item c).width = (if c.rotated then item.length else item.width) := by
  cases hc : c.rotated <;> simp [applyCandidate, Item.rotate, hc]

/-- Under the invariant, the item positioned at a candidate returned by
find_best_position passes the defensive bounding-box check: its
footprint lies inside a region that is disjoint from every placed item. -/
lemma checkOverlap_false_of_inv {p : Pallet} {item : Item} {c : Candidate}
    (hinv : Inv p) (hspec : candSpec p item c) :
    checkOverlap p (applyCandidate item c) = false := by
  rcases hspec with ⟨⟨e, he, hx, hy, hw, hh⟩, hwd, hhd⟩
  rcases applyCandidate_fields item c with ⟨hax, hay, halen, hawid⟩
  rw [checkOverlap, List.any_eq_false]
  intro existing hex
  have hdisj := hinv.2.2 e he existing hex
  unfold emsItemDisjoint at hdisj
  unfold itemsOverlapB
  simp only [Bool.not_eq_true', Bool.not_eq_false, Bool.or_eq_true, decide_eq_true_eq,
    hax, hay, Option.getD_some]
  have hlen : (applyCandidate item c).length = c.width := by rw [halen, ← hwd]
  have hwid : (applyCandidate item c).width = c.height := by rw [hawid, ← hhd]
  rw [hlen, hwid]
  omega

/-- Shape of a successful place_item call. -/
lemma placeItem_success_spec {p p1 : Pallet} {item item1 : Item}
    (h : placeItem p item = (true, p1, item1)) :
    ∃ c, findBestPosition p item = some c ∧ item1 = applyCandidate item c ∧
      checkOverlap p item1 = false ∧
      p1 = { p with
              items := p.items ++ [item1],
              occupied_area := p.occupied_area + item1.length * item1.width,
              free_area := p.free_area - item1.length * item1.width,
              ems_list := pruneEmsList
                (p.ems_list.flatMap (fun e => clipEmsByItem e item1)) } := by
  unfold placeItem at h
  cases hfb : findBestPosition p item with
  | none => rw [hfb] at h; exact absurd (congrArg Prod.fst h) (by simp)
  | some c =>
    rw [hfb] at h
    dsimp only at h
    split at h
    · exact absurd (congrArg Prod.fst h) (by simp)
    · rename_i hov
      have h2 := congrArg (fun t => t.2.2) h
      dsimp only at h2
      have h1 := congrArg (fun t => t.2.1) h
      dsimp only at h1
      subst h2
      exact ⟨c, rfl, rfl, by simpa using hov, h1.symm⟩

/-- A failed place_item call leaves the pallet untouched. -/
lemma placeItem_fail_pallet {p p1 : Pallet} {item item1 : Item}
    (h : placeItem p item = (false, p1, item1)) : p1 = p := by
  unfold placeItem at h
  cases hfb : findBestPosition p item with
  | none => rw [hfb] at h; exact (congrArg (fun t => t.2.1) h).symm
  | some c =>
    rw [hfb] at h
    dsimp only at h
    split at h
    · exact (congrArg (fun t => t.2.1) h).symm
    · exact absurd (congrArg Prod.fst h) (by simp)

/-- Under the invariant place_item can only fail by finding no
candidate, in which case the item is returned untouched. -/
lemma placeItem_fail_of_inv {p p1 : Pallet} {item item1 : Item}
    (hinv : Inv p) (h : placeItem p item = (false, p1, item1)) :
    item1 = item ∧ findBestPosition p item = none := by
  unfold placeItem at h
  cases hfb : findBestPosition p item with
  | none =>
    rw [hfb] at h
    exact ⟨(congrArg (fun t => t.2.2) h).symm, rfl⟩
  | some c =>
    rw [hfb] at h
    dsimp only at h
    split at h
    · rename_i hov
      have := checkOverlap_false_of_inv hinv (findBestPosition_spec hfb)
      rw [this] at hov
      exact absurd hov (by simp)
    · exact absurd (congrArg Prod.fst h) (by simp)

end Thesis

namespace Thesis

/-- The pallet invariant is preserved by every successful place_item. -/
lemma inv_placeItem {p p1 : Pallet} {item item1 : Item}
    (hinv : Inv p) (h : placeItem p item = (true, p1, item1)) : Inv p1 := by
  rcases placeItem_success_spec h with ⟨c, hfb, hitem, hov, hp1⟩
  have hspec := findBestPosition_spec hfb
  rcases hspec with ⟨⟨E, hE, hx, hy, hw, hh⟩, hwd, hhd⟩
  rcases applyCandidate_fields item c with ⟨hax, hay, halen, hawid⟩
  have hi1x : item1.x.getD 0 = E.x := by rw [hitem, hax, Option.getD_some, hx]
  have hi1y : item1.y.getD 0 = E.y := by rw [hitem, hay, Option.getD_some, hy]
  -- no region corner is strictly dominated by the corner of E, so the
  -- interior L-split case of the clipping never fires
  have h5 : ∀ e ∈ p.ems_list, ¬(e.x < item1.x.getD 0 ∧ e.y < item1.y.getD 0) := by
    intro e he hlt
    rw [hi1x, hi1y] at hlt
    by_cases heE : e = E
    · subst heE; omega
    · have := (List.Pairwise.forall incomp_symm hinv.2.1) he hE heE
      unfold incomp at this
      omega
  subst hp1
  refine ⟨?_, ?_, ?_⟩
  · intro r hr
    rcases List.mem_flatMap.1 (pruneEmsList_subset hr) with ⟨e, he, hre⟩
    have hc := (clipEmsByItem_corner_sub hre).1
    have hec := hinv.1 e he
    dsimp only
    omega
  · dsimp only
    refine @pruneEmsList_pairwise_incomp p.length p.width _ ?_
    intro r hr
    rcases List.mem_flatMap.1 hr with ⟨e, he, hre⟩
    have hc := (clipEmsByItem_corner_sub hre).1
    have hec := hinv.1 e he
    omega
  · intro r hr it hit
    dsimp only at hr hit
    rcases List.mem_flatMap.1 (pruneEmsList_subset hr) with ⟨e, he, hre⟩
    rcases List.mem_append.1 hit with hold | hnew
    · exact emsItemDisjoint_of_sub
        ⟨(clipEmsByItem_corner_sub hre).1, (clipEmsByItem_corner_sub hre).2⟩
        (hinv.2.2 e he it hold)
    · rw [List.mem_singleton.1 hnew]
      exact clipEmsByItem_disjoint hre (h5 e he)

/-- Every reachable pallet satisfies the invariant. -/
lemma reachable_inv {p : Pallet} (h : Reachable p) : Inv p := by
  induction h with
  | fresh pallet_id length width =>
    refine ⟨?_, ?_, ?_⟩
    · intro e he
      simp only [freshPallet, List.mem_singleton] at he
      subst he
      simp [freshPallet]
    · simp [freshPallet]
    · intro e he it hit
      simp [freshPallet] at hit
  | step hr hpl ih => exact inv_placeItem ih hpl

/-- The running area counters of every reachable pallet: occupied_area
is exactly the summed area of the committed items and occupied plus
free is constant at length times width. -/
lemma reachable_accounting {p : Pallet} (h : Reachable p) :
    p.occupied_area = (p.items.map Item.area).sum ∧
    p.occupied_area + p.free_area = p.length * p.width := by
  induction h with
  | fresh pallet_id length width => simp [freshPallet]
  | step hr hpl ih =>
    rename_i p0 p1 item item1
    rcases placeItem_success_spec hpl with ⟨c, -, -, -, hp1⟩
    subst hp1
    dsimp only
    rw [List.map_append, List.sum_append]
    simp only [List.map_cons, List.map_nil, List.sum_cons, List.sum_nil]
    constructor
    · rw [ih.1]; simp [Item.area]
    · rw [← ih.2]; ring

end Thesis

namespace Thesis

lemma Item.rotate_rotate (i : Item) : i.rotate.rotate = i := by
  simp [Item.rotate]

/-- Failure of try_place_item on an invariant state restores the item:
both inner place_item calls can only fail without a candidate, and the
two rotations cancel. -/
lemma tryPlaceItem_fail_of_inv {p : Pallet} {item : Item} {p1 : Pallet} {i1 : Item}
    (hinv : Inv p) (h : tryPlaceItem p item = (false, p1, i1)) :
    i1 = item ∧ p1 = p := by
  unfold tryPlaceItem at h
  cases h1 : placeItem p item with
  | mk ok1 rest1 =>
    rcases rest1 with ⟨q1, j1⟩
    rw [h1] at h
    cases ok1 with
    | true => exact absurd (congrArg Prod.fst h) (by simp)
    | false =>
      have hj1 : j1 = item := (placeItem_fail_of_inv hinv h1).1
      dsimp only at h
      cases h2 : placeItem p j1.rotate with
      | mk ok2 rest2 =>
        rcases rest2 with ⟨q2, j2⟩
        rw [h2] at h
        cases ok2 with
        | true => exact absurd (congrArg Prod.fst h) (by simp)
        | false =>
          have hj2 : j2 = j1.rotate := (placeItem_fail_of_inv hinv h2).1
          have hfin := congrArg (fun t => t.2.2) h
          have hfp := congrArg (fun t => t.2.1) h
          dsimp only at hfin hfp
          constructor
          · rw [← hfin, hj2, hj1, Item.rotate_rotate]
          · exact hfp.symm

/-- C1, amended part.  For every pallet reachable from a fresh pallet
by successful place_item calls, occupied_area equals the summed area of
the committed items, and occupied_area + free_area stays constant at
length * width. -/
theorem occupied_area_accounting (p : Pallet) (h : Reachable p) :
    p.occupied_area = (p.items.map Item.area).sum ∧
    p.occupied_area + p.free_area = p.length * p.width :=
  reachable_accounting h

/-- Witness for occupied_area_accounting at a concrete reachable state. -/
theorem occupied_area_accounting_witness :
    (freshPallet 1 120 100).occupied_area =
      ((freshPallet 1 120 100).items.map Item.area).sum ∧
    (freshPallet 1 120 100).occupied_area + (freshPallet 1 120 100).free_area =
      (freshPallet 1 120 100).length * (freshPallet 1 120 100).width :=
  occupied_area_accounting _ (Reachable.fresh 1 120 100)

/-- C1, counterexample.  One successful place_item of a 50 x 50 item on
a fresh 120 x 100 pallet leaves occupied_area 2500 and two overlapping
EMS regions of areas 7000 and 6000: occupied_area plus the summed EMS
areas is 15500, which exceeds the pallet area 12000.  The claimed bound
occupied_area + sum of pruned EMS areas <= pallet area is false. -/
theorem occupied_plus_ems_area_counterexample :
    (placeItem (freshPallet 1 120 100) { item_id := 1, length := 50, width := 50 }).1 = true ∧
    ((placeItem (freshPallet 1 120 100) { item_id := 1, length := 50, width := 50 }).2.1.occupied_area +
      (((placeItem (freshPallet 1 120 100) { item_id := 1, length := 50, width := 50 }).2.1.ems_list).map EMS.area).sum = 15500) ∧
    ¬((placeItem (freshPallet 1 120 100) { item_id := 1, length := 50, width := 50 }).2.1.occupied_area +
      (((placeItem (freshPallet 1 120 100) { item_id := 1, length := 50, width := 50 }).2.1.ems_list).map EMS.area).sum ≤
      (placeItem (freshPallet 1 120 100) { item_id := 1, length := 50, width := 50 }).2.1.length *
      (placeItem (freshPallet 1 120 100) { item_id := 1, length := 50, width := 50 }).2.1.width) := by
  refine ⟨by decide, by decide, by decide⟩

/-- C3.  In every reachable pallet state, whenever find_best_position
returns a candidate, the item positioned at that candidate passes the
defensive bounding-box check against every committed item: the
commit-time overlap rejection branch of place_item is unreachable. -/
theorem candidate_never_overlaps (p : Pallet) (item : Item) (c : Candidate)
    (h : Reachable p) (hc : findBestPosition p item = some c) :
    checkOverlap p (applyCandidate item c) = false :=
  checkOverlap_false_of_inv (reachable_inv h) (findBestPosition_spec hc)

/-- Witness for candidate_never_overlaps on a fresh pallet. -/
theorem candidate_never_overlaps_witness :
    checkOverlap (freshPallet 1 120 100)
      (applyCandidate { item_id := 1, length := 50, width := 50 }
        ⟨0, 0, 50, 50, false⟩) = false :=
  candidate_never_overlaps (freshPallet 1 120 100)
    { item_id := 1, length := 50, width := 50 } ⟨0, 0, 50, 50, false⟩
    (Reachable.fresh 1 120 100) (by decide)

/-- C4.  On every pallet state satisfying the invariant (every pallet
state the program builds does: states reachable by place_item from a
fresh pallet, and the scratch pallets of palletize_orders, whose EMS
lists are copied from reachable pallets onto empty item lists), a
try_place_item call that returns False leaves the item exactly as it
was: length, width, rotated flag and placement coordinates unchanged. -/
theorem try_place_item_failure_reversible (p : Pallet) (item : Item)
    (p1 : Pallet) (i1 : Item) (hinv : Inv p)
    (h : tryPlaceItem p item = (false, p1, i1)) :
    i1 = item :=
  (tryPlaceItem_fail_of_inv hinv h).1

/-- Witness for try_place_item_failure_reversible: a 130 x 130 item
fails on the fresh pallet and is returned untouched. -/
theorem try_place_item_failure_reversible_witness :
    (⟨2, none, 130, 130, none, none, false⟩ : Item) =
      { item_id := 2, length := 130, width := 130 } :=
  try_place_item_failure_reversible (freshPallet 1 120 100)
    { item_id := 2, length := 130, width := 130 }
    (freshPallet 1 120 100) ⟨2, none, 130, 130, none, none, false⟩
    (reachable_inv (Reachable.fresh 1 120 100)) (by decide)

end Thesis

namespace Thesis

lemma nodup_get?_inj {lst : List EMS} (h : lst.Nodup) {i j : Nat} {a : EMS}
    (hi : lst.get? i = some a) (hj : lst.get? j = some a) : i = j := by
  rw [List.get?_eq_getElem?] at hi hj
  rcases List.getElem?_eq_some.1 hi with ⟨hi1, hie⟩
  rcases List.getElem?_eq_some.1 hj with ⟨hj1, hje⟩
  exact (List.Nodup.getElem_inj_iff h).1 (hie.trans hje.symm)

lemma containedInB_iff {e o : EMS} :
    containedInB e o = true ↔
      o.x ≤ e.x ∧ o.y ≤ e.y ∧ e.x + e.length ≤ o.x + o.length ∧
      e.y + e.width ≤ o.y + o.width := by
  simp [containedInB, and_assoc]

lemma containedInB_trans {a b c : EMS}
    (hab : containedInB a b = true) (hbc : containedInB b c = true) :
    containedInB a c = true := by
  rw [containedInB_iff] at *
  omega

lemma containedInB_antisymm {a b : EMS}
    (hab : containedInB a b = true) (hba : containedInB b a = true) : a = b := by
  rw [containedInB_iff] at hab hba
  rcases a with ⟨ax, ay, al, aw⟩
  rcases b with ⟨bx, by_, bl, bw⟩
  simp only [] at hab hba
  have hx : ax = bx := by omega
  have hy : ay = by_ := by omega
  have hl : al = bl := by omega
  have hw : aw = bw := by omega
  simp [hx, hy, hl, hw]

/-- Any region of the list strictly dominated by some other region is
dominated by one that itself survives pruning: the containment-maximal
dominating region passes both pruning tests. -/
lemma exists_surviving_superset {lst : List EMS} {e o : EMS}
    (hnd : lst.Nodup) (ho : o ∈ lst) (hco : containedInB e o = true)
    (hne : o ≠ e) (he10 : 10 ≤ e.length) (hw10 : 10 ≤ e.width) :
    ∃ m ∈ pruneEmsList lst, m ≠ e ∧ containedInB e m = true := by
  classical
  set S := lst.filter (fun b => containedInB e b && decide (b ≠ e)) with hS
  have hoS : o ∈ S := by
    rw [hS, List.mem_filter]
    exact ⟨ho, by simp [hco, hne]⟩
  cases hm : S.argmax (fun b => b.length * b.width) with
  | none => rw [List.argmax_eq_none] at hm; rw [hm] at hoS; exact absurd hoS (List.not_mem_nil o)
  | some m =>
    have hmS : m ∈ S := List.argmax_mem hm
    rw [hS, List.mem_filter] at hmS
    have hml : m ∈ lst := hmS.1
    have hmP : containedInB e m = true ∧ m ≠ e := by
      have := hmS.2
      simp only [Bool.and_eq_true, decide_eq_true_eq] at this
      exact this
    -- the argmax survives pruning
    rcases List.mem_iff_get?.1 hml with ⟨i, hgi⟩
    have hbig : 10 ≤ m.length ∧ 10 ≤ m.width := by
      have := containedInB_iff.1 hmP.1
      omega
    refine ⟨m, mem_pruneEmsList_iff.2 ⟨i, hgi, hbig.1, hbig.2, ?_⟩, hmP.2, hmP.1⟩
    intro j b hgj hji
    by_contra hcb
    rw [Bool.not_eq_false] at hcb
    -- b strictly contains the maximal element: impossible
    have hbl : b ∈ lst := List.get?_mem hgj
    have hbe : b ≠ e := by
      intro hrfl
      subst hrfl
      exact hmP.2 (containedInB_antisymm hmP.1 hcb).symm
    have hbS : b ∈ S := by
      rw [hS, List.mem_filter]
      refine ⟨hbl, by simp [containedInB_trans hmP.1 hcb, hbe]⟩
    have harea := List.le_of_mem_argmax hbS hm
    have h1 := containedInB_iff.1 hcb
    have hmb : m = b := by
      have hml2 : m.length ≤ b.length := by omega
      have hmw : m.width ≤ b.width := by omega
      have hble : b.length * b.width ≤ m.length * m.width := harea
      have hbw : b.width ≤ m.width := by nlinarith
      have hbl2 : b.length ≤ m.length := by nlinarith
      rcases m with ⟨mx, my, ml, mw⟩
      rcases b with ⟨bx, by_, bl, bw⟩
      simp only [] at *
      have : mx = bx := by omega
      have : my = by_ := by omega
      simp_all
      omega
    subst hmb
    exact hji (nodup_get?_inj hnd hgj hgi)

end Thesis

namespace Thesis

/-- C8, amended.  For a list of pairwise-distinct EMS regions, pruning
keeps exactly the regions with both edges at least 10 that are not
contained in another surviving region, and no surviving region is
contained in (in particular, is a strict subset of) another survivor. -/
theorem prune_keeps_exactly (lst : List EMS) (hnd : lst.Nodup) (e : EMS) :
    (e ∈ pruneEmsList lst ↔
      e ∈ lst ∧ 10 ≤ e.length ∧ 10 ≤ e.width ∧
        ¬∃ o ∈ pruneEmsList lst, o ≠ e ∧ containedInB e o = true) ∧
    (∀ a ∈ pruneEmsList lst, ∀ b ∈ pruneEmsList lst, a ≠ b →
      containedInB a b = false) := by
  constructor
  · constructor
    · intro he
      refine ⟨pruneEmsList_subset he, (pruneEmsList_big he).1, (pruneEmsList_big he).2, ?_⟩
      rintro ⟨o, ho, hone, hco⟩
      have := pruneEmsList_not_contained he (pruneEmsList_subset ho) hone
      rw [this] at hco
      exact absurd hco (by simp)
    · rintro ⟨hel, h10a, h10b, hnosup⟩
      rcases List.mem_iff_get?.1 hel with ⟨i, hgi⟩
      refine mem_pruneEmsList_iff.2 ⟨i, hgi, h10a, h10b, ?_⟩
      intro j o hgj hji
      by_contra hcb
      rw [Bool.not_eq_false] at hcb
      have hol : o ∈ lst := List.get?_mem hgj
      have hone : o ≠ e := by
        intro hrfl
        subst hrfl
        exact hji (nodup_get?_inj hnd hgj hgi)
      rcases exists_surviving_superset hnd hol hcb hone h10a h10b with ⟨m, hm, hmne, hem⟩
      exact hnosup ⟨m, hm, hmne, hem⟩
  · intro a ha b hb hab
    exact pruneEmsList_not_contained ha (pruneEmsList_subset hb) (Ne.symm hab)

/-- Witness for prune_keeps_exactly: on the duplicate-free list
[(0,0,10x10), (0,0,20x20)] the small region is dominated by the
surviving larger one and is dropped. -/
theorem prune_keeps_exactly_witness :
    ([⟨0, 0, 10, 10⟩, ⟨0, 0, 20, 20⟩] : List EMS).Nodup ∧
    (((⟨0, 0, 10, 10⟩ : EMS) ∈ pruneEmsList [⟨0, 0, 10, 10⟩, ⟨0, 0, 20, 20⟩] ↔
      (⟨0, 0, 10, 10⟩ : EMS) ∈ ([⟨0, 0, 10, 10⟩, ⟨0, 0, 20, 20⟩] : List EMS) ∧
        10 ≤ (⟨0, 0, 10, 10⟩ : EMS).length ∧ 10 ≤ (⟨0, 0, 10, 10⟩ : EMS).width ∧
        ¬∃ o ∈ pruneEmsList [⟨0, 0, 10, 10⟩, ⟨0, 0, 20, 20⟩],
            o ≠ (⟨0, 0, 10, 10⟩ : EMS) ∧ containedInB ⟨0, 0, 10, 10⟩ o = true) ∧
     (∀ a ∈ pruneEmsList [⟨0, 0, 10, 10⟩, ⟨0, 0, 20, 20⟩],
        ∀ b ∈ pruneEmsList [⟨0, 0, 10, 10⟩, ⟨0, 0, 20, 20⟩], a ≠ b →
          containedInB a b = false)) :=
  ⟨by decide, prune_keeps_exactly _ (by decide) _⟩

/-- C8, counterexample.  With two identical copies of a region, the
identity-based dominance loop of prune_ems_list discards both copies,
yet neither is contained in another surviving region, so the claimed
keep-exactly characterization fails on lists with duplicates. -/
theorem prune_duplicate_counterexample :
    ¬((⟨0, 0, 10, 10⟩ : EMS) ∈ pruneEmsList [⟨0, 0, 10, 10⟩, ⟨0, 0, 10, 10⟩] ↔
      (⟨0, 0, 10, 10⟩ : EMS) ∈ ([⟨0, 0, 10, 10⟩, ⟨0, 0, 10, 10⟩] : List EMS) ∧
        10 ≤ (⟨0, 0, 10, 10⟩ : EMS).length ∧ 10 ≤ (⟨0, 0, 10, 10⟩ : EMS).width ∧
        ¬∃ o ∈ pruneEmsList [⟨0, 0, 10, 10⟩, ⟨0, 0, 10, 10⟩],
            o ≠ (⟨0, 0, 10, 10⟩ : EMS) ∧ containedInB ⟨0, 0, 10, 10⟩ o = true) := by
  decide

end Thesis

namespace Thesis

/-- One failed-order record of palletize_orders: order id, offending
item id, and the footprint printed in the reason message. -/
structure FailEntry where
  orderId : Nat
  failedItem : Nat
  reqLength : Int
  reqWidth : Int
deriving DecidableEq, Repr

/-- compute_order_total_area of palletization.py. -/
def computeOrderTotalArea (itemsDict : Nat → Item) (item_ids : List Nat) : Int :=
  (item_ids.map (fun iid => (itemsDict iid).length * (itemsDict iid).width)).sum

/-- The scratch-pallet feasibility check of palletize_orders:
all(temp_pallet.try_place_item(item.copy()) for item in order_items),
with the generator short-circuit. -/
def tempAllFit (p : Pallet) : List Item → Bool
  | [] => true
  | it :: rest =>
    let r := tryPlaceItem p it
    if r.1 then tempAllFit r.2.1 rest else false

/-- The committed placement loop on an accepting pallet: every item is
tried in turn; return values are ignored by the source. -/
def realPlace (p : Pallet) (items : List Item) : Pallet :=
  items.foldl (fun q it => (tryPlaceItem q it).2.1) p

/-- The existing-pallet loop of palletize_orders: walk the pallets in
creation order, check the whole order on a scratch pallet carrying a
copy of the EMS list (and no items), and commit to the first pallet
that fits.  Returns the updated pallet list and the chosen pallet id. -/
def tryExistingPallets (order_items : List Item) : List Pallet → Option (List Pallet × Nat)
  | [] => none
  | pallet :: rest =>
    let temp : Pallet := { freshPallet pallet.id pallet.length pallet.width with
                           ems_list := pallet.ems_list }
    if tempAllFit temp order_items then
      some (realPlace pallet order_items :: rest, pallet.id)
    else
      match tryExistingPallets order_items rest with
      | some (rest1, pid) => some (pallet :: rest1, pid)
      | none => none

/-- The new-pallet loop of palletize_orders: place the order items one
by one on a fresh pallet; at the first failure record a failed-order
entry with the item dimensions as the call left them. -/
def newPalletLoop (oid : Nat) : Pallet → List Item → Pallet × Option FailEntry
  | p, [] => (p, none)
  | p, it :: rest =>
    let r := tryPlaceItem p it
    if r.1 then newPalletLoop oid r.2.1 rest
    else (p, some ⟨oid, it.item_id, r.2.2.length, r.2.2.width⟩)

/-- The per-order items: copies from the catalog tagged with the order
id, sorted by area descending (Python sort is stable). -/
def orderItemsOf (itemsDict : Nat → Item) (oid : Nat) (item_ids : List Nat) : List Item :=
  (item_ids.map (fun iid => { itemsDict iid with order_id := some oid })).mergeSort
    (fun a b => decide (b.length * b.width ≤ a.length * a.width))

/-- Main loop of palletize_orders over the area-sorted orders, carrying
the pallet list, order-to-pallet mapping and failed-order list. -/
def palletizeLoop (itemsDict : Nat → Item) :
    List (Nat × List Nat) → List Pallet → List (Nat × Nat) → List FailEntry →
    List Pallet × List (Nat × Nat) × List FailEntry
  | [], pallets, mapping, failed => (pallets, mapping, failed)
  | (oid, item_ids) :: rest, pallets, mapping, failed =>
    let order_items := orderItemsOf itemsDict oid item_ids
    match tryExistingPallets order_items pallets with
    | some (pallets1, pid) =>
        palletizeLoop itemsDict rest pallets1 (mapping ++ [(oid, pid)]) failed
    | none =>
        let newP := freshPallet (pallets.length + 1)
        match newPalletLoop oid newP order_items with
        | (p1, none) =>
            palletizeLoop itemsDict rest (pallets ++ [p1])
              (mapping ++ [(oid, pallets.length + 1)]) failed
        | (_, some fe) =>
            palletizeLoop itemsDict rest pallets mapping (failed ++ [fe])

/-- palletize_orders of palletization.py (debug and visualization
arguments stripped): sort the orders by total item area descending and
run the placement loop. -/
def palletizeOrders (itemsDict : Nat → Item) (orders : List (Nat × List Nat)) :
    List Pallet × List (Nat × Nat) × List FailEntry :=
  palletizeLoop itemsDict
    (orders.mergeSort (fun a b =>
      decide (computeOrderTotalArea itemsDict b.2 ≤ computeOrderTotalArea itemsDict a.2)))
    [] [] []

lemma perm_shift_mid {α : Type} (a : α) (m f r : List α) :
    (((m ++ [a]) ++ f) ++ r).Perm ((m ++ f) ++ (a :: r)) := by
  have h1 : ((m ++ [a]) ++ f) ++ r = m ++ (a :: (f ++ r)) := by simp
  have h2 : (m ++ f) ++ (a :: r) = m ++ (f ++ (a :: r)) := by simp
  rw [h1, h2]
  exact List.Perm.append_left m List.perm_middle.symm

lemma perm_shift_end {α : Type} (a : α) (m f r : List α) :
    ((m ++ (f ++ [a])) ++ r).Perm ((m ++ f) ++ (a :: r)) := by
  have h1 : (m ++ (f ++ [a])) ++ r = (m ++ f) ++ (a :: r) := by simp
  rw [h1]

/-- A failed-order record produced by the new-pallet loop carries the
processed order id. -/
lemma newPalletLoop_fail_oid {oid : Nat} :
    ∀ {p p1 : Pallet} {items : List Item} {fe : FailEntry},
      newPalletLoop oid p items = (p1, some fe) → fe.orderId = oid := by
  intro p p1 items
  induction items generalizing p with
  | nil => intro fe h; simp [newPalletLoop] at h
  | cons it rest ih =>
    intro fe h
    rw [newPalletLoop] at h
    split at h
    · exact ih h
    · have := congrArg (fun t => t.2) h
      simp only [Option.some_inj] at this
      rw [← this]

/-- Through the palletize loop, the keys of the order-to-pallet mapping
together with the failed order ids collect exactly the processed order
ids (one bookkeeping entry per processed order). -/
lemma palletizeLoop_keys (itemsDict : Nat → Item) :
    ∀ (ordersList : List (Nat × List Nat)) (pallets : List Pallet)
      (mapping : List (Nat × Nat)) (failed : List FailEntry),
      (((palletizeLoop itemsDict ordersList pallets mapping failed).2.1.map Prod.fst) ++
        ((palletizeLoop itemsDict ordersList pallets mapping failed).2.2.map FailEntry.orderId)).Perm
      ((mapping.map Prod.fst ++ failed.map FailEntry.orderId) ++ ordersList.map Prod.fst) := by
  intro ordersList
  induction ordersList with
  | nil =>
    intro pallets mapping failed
    simp [palletizeLoop]
  | cons od rest ih =>
    intro pallets mapping failed
    rcases od with ⟨oid, item_ids⟩
    rw [palletizeLoop]
    dsimp only
    cases hte : tryExistingPallets (orderItemsOf itemsDict oid item_ids) pallets with
    | some pr =>
      rcases pr with ⟨pallets1, pid⟩
      refine (ih pallets1 (mapping ++ [(oid, pid)]) failed).trans ?_
      simp only [List.map_append, List.map_cons, List.map_nil]
      exact perm_shift_mid oid _ _ _
    | none =>
      cases hnp : newPalletLoop oid (freshPallet (pallets.length + 1))
          (orderItemsOf itemsDict oid item_ids) with
      | mk p1 ofe =>
        cases ofe with
        | none =>
          refine (ih (pallets ++ [p1]) (mapping ++ [(oid, pallets.length + 1)]) failed).trans ?_
          simp only [List.map_append, List.map_cons, List.map_nil]
          exact perm_shift_mid oid _ _ _
        | some fe =>
          refine (ih pallets mapping (failed ++ [fe])).trans ?_
          simp only [List.map_append, List.map_cons, List.map_nil]
          rw [newPalletLoop_fail_oid hnp]
          exact perm_shift_end oid _ _ _

end Thesis

namespace Thesis

/-- C2.  For every item catalog and duplicate-free order map, the keys
of the order-to-pallet mapping returned by palletize_orders together
with the order ids of the failed-orders list are a permutation of the
input order ids, with no repetition: every input order id appears
either in the mapping (with exactly one pallet id) or in the
failed-orders list, never in both and never in neither. -/
theorem palletize_partitions_orders (itemsDict : Nat → Item)
    (orders : List (Nat × List Nat)) (hnd : (orders.map Prod.fst).Nodup) :
    (((palletizeOrders itemsDict orders).2.1.map Prod.fst) ++
      ((palletizeOrders itemsDict orders).2.2.map FailEntry.orderId)).Perm
      (orders.map Prod.fst) ∧
    (((palletizeOrders itemsDict orders).2.1.map Prod.fst) ++
      ((palletizeOrders itemsDict orders).2.2.map FailEntry.orderId)).Nodup := by
  have h1 := palletizeLoop_keys itemsDict
    (orders.mergeSort (fun a b =>
      decide (computeOrderTotalArea itemsDict b.2 ≤ computeOrderTotalArea itemsDict a.2)))
    [] [] []
  simp only [List.map_nil, List.nil_append, List.append_nil] at h1
  have hsort : ((orders.mergeSort (fun a b =>
      decide (computeOrderTotalArea itemsDict b.2 ≤ computeOrderTotalArea itemsDict a.2))).map
        Prod.fst).Perm (orders.map Prod.fst) :=
    List.Perm.map Prod.fst (List.mergeSort_perm orders _)
  have hperm := h1.trans hsort
  exact ⟨hperm, (hperm.symm).nodup hnd⟩

/-- Item catalog for the palletization witness: item 1 fits a pallet,
item 2 is larger than the pallet in both orientations. -/
def c2TestDict : Nat → Item := fun iid =>
  if iid = 1 then { item_id := 1, length := 50, width := 50 }
  else { item_id := 2, length := 130, width := 130 }

/-- Order map for the palletization witness. -/
def c2TestOrders : List (Nat × List Nat) := [(7, [1]), (9, [2])]

/-- Witness for palletize_partitions_orders: two orders, one of which
contains an item that can never fit a pallet; the fitting order is
mapped, the oversized one is recorded as failed. -/
theorem palletize_partitions_orders_witness :
    ((c2TestOrders.map Prod.fst).Nodup) ∧
    ((((palletizeOrders c2TestDict c2TestOrders).2.1.map Prod.fst) ++
      ((palletizeOrders c2TestDict c2TestOrders).2.2.map FailEntry.orderId)).Perm
      (c2TestOrders.map Prod.fst)) ∧
    (((palletizeOrders c2TestDict c2TestOrders).2.1.map Prod.fst) ++
      ((palletizeOrders c2TestDict c2TestOrders).2.2.map FailEntry.orderId)).Nodup :=
  ⟨by decide,
   (palletize_partitions_orders c2TestDict c2TestOrders (by decide)).1,
   (palletize_partitions_orders c2TestDict c2TestOrders (by decide)).2⟩

end Thesis

namespace Thesis

/-- A node of a picking route: the depot sentinel or an item id. -/
inductive Node where
  | depot : Node
  | item (id : Nat) : Node
deriving DecidableEq, Repr

/-- Sum of the item-to-item distances along adjacent pairs of a
sequence (the middle loop of compute_route_distance). -/
def adjSum (itemDist : Nat → Nat → Rat) : List Nat → Rat
  | [] => 0
  | [_] => 0
  | a :: b :: rest => itemDist a b + adjSum itemDist (b :: rest)

/-- compute_route_distance of routing.py: strip the depot sentinels,
then depot-to-first plus adjacent item distances plus last-to-depot;
a depot-only route has distance 0. -/
def computeRouteDistance (itemDist : Nat → Nat → Rat) (depotDist : Nat → Rat)
    (route : List Node) : Rat :=
  let itemSeq := route.filterMap (fun n => match n with
    | Node.depot => none
    | Node.item i => some i)
  match itemSeq with
  | [] => 0
  | x :: xs => depotDist x + adjSum itemDist (x :: xs) + depotDist ((x :: xs).getLast (by simp))

/-- calculate_savings of clarke_wright.py: one entry per index pair
i < j, in insertion order, valued depot(i) + depot(j) - dist(i, j). -/
def savingsList (depotDist : Nat → Rat) (itemDist : Nat → Nat → Rat)
    (items : List Nat) : List ((Nat × Nat) × Rat) :=
  (List.range items.length).flatMap (fun i =>
    ((List.range items.length).drop (i + 1)).map (fun j =>
      ((i, j),
        depotDist (items.getD i 0) + depotDist (items.getD j 0) -
          itemDist (items.getD i 0) (items.getD j 0))))

/-- One merge step of ClarkeWrightSolver.solve over routes of temporary
occurrence indices: find the routes containing the two endpoints; skip
when either is missing, empty, or they coincide; merge tail-to-head
when the endpoint conditions hold. -/
def cwStep (routes : List (List Nat)) (pr : (Nat × Nat) × Rat) : List (List Nat) :=
  let i := pr.1.1
  let j := pr.1.2
  match routes.find? (fun r => decide (i ∈ r)), routes.find? (fun r => decide (j ∈ r)) with
  | some ri, some rj =>
    if ri.isEmpty ∨ rj.isEmpty ∨ ri = rj then routes
    else if ri.getLast? = some i ∧ rj.head? = some j then
      ((routes.erase ri).erase rj) ++ [ri ++ rj]
    else if rj.getLast? = some j ∧ ri.head? = some i then
      ((routes.erase ri).erase rj) ++ [rj ++ ri]
    else routes
  | _, _ => routes

/-- ClarkeWrightSolver.solve: preserve duplicate occurrences through
per-occurrence indices, start from singleton routes, merge greedily in
order of descending savings (Python sort is stable), and wrap the
concatenated remainder in depot sentinels. -/
def solve (depotDist : Nat → Rat) (itemDist : Nat → Nat → Rat)
    (items_to_route : List Nat) : List Node :=
  if items_to_route.isEmpty then [Node.depot, Node.depot]
  else
    let items := items_to_route
    let routes0 := (List.range items.length).map (fun t => [t])
    let sortedSavings := (savingsList depotDist itemDist items).mergeSort
      (fun a b => decide (b.2 ≤ a.2))
    let routes := sortedSavings.foldl cwStep routes0
    Node.depot :: ((routes.flatMap id).map (fun t => Node.item (items.getD t 0)) ++ [Node.depot])

lemma perm_cons_erase_beq {α : Type} [BEq α] [LawfulBEq α] {a : α} {l : List α}
    (h : a ∈ l) : l.Perm (a :: l.erase a) := by
  induction l with
  | nil => cases h
  | cons b t ih =>
    by_cases hba : b = a
    · subst hba
      rw [List.erase_cons, if_pos (by simp)]
    · rw [List.erase_cons, if_neg (by simpa using hba)]
      have hat : a ∈ t := by
        rcases List.mem_cons.1 h with h1 | h1
        · exact absurd h1.symm hba
        · exact h1
      exact (List.Perm.cons b (ih hat)).trans (List.Perm.swap a b _)

/-- Each merge step preserves the multiset of occurrence indices spread
over the routes. -/
lemma cwStep_flatMap_perm (routes : List (List Nat)) (pr : (Nat × Nat) × Rat) :
    ((cwStep routes pr).flatMap id).Perm (routes.flatMap id) := by
  simp only [cwStep]
  cases hri : routes.find? (fun r => decide (pr.1.1 ∈ r)) with
  | none =>
    exact List.Perm.refl _
  | some ri =>
    cases hrj : routes.find? (fun r => decide (pr.1.2 ∈ r)) with
    | none =>
      exact List.Perm.refl _
    | some rj =>
      dsimp only
      have hrim : ri ∈ routes := List.mem_of_find?_eq_some hri
      have hrjm : rj ∈ routes := List.mem_of_find?_eq_some hrj
      split
      · exact List.Perm.refl _
      · rename_i hne
        have hrirj : ri ≠ rj := fun h => hne (Or.inr (Or.inr h))
        have hperm1 : routes.Perm (ri :: (routes.erase ri)) := perm_cons_erase_beq hrim
        have hrj2 : rj ∈ routes.erase ri := (List.mem_erase_of_ne (Ne.symm hrirj)).2 hrjm
        have hperm2 : (routes.erase ri).Perm (rj :: ((routes.erase ri).erase rj)) :=
          perm_cons_erase_beq hrj2
        have hbase : (routes.flatMap id).Perm
            (ri ++ (rj ++ (((routes.erase ri).erase rj).flatMap id))) := by
          rw [List.flatMap_id, List.flatMap_id]
          refine (List.Perm.flatten hperm1).trans ?_
          rw [List.flatten_cons]
          refine List.Perm.append_left ri ?_
          refine (List.Perm.flatten hperm2).trans ?_
          rw [List.flatten_cons]
        have hnew1 : ((((routes.erase ri).erase rj) ++ [ri ++ rj]).flatMap id).Perm
            (ri ++ (rj ++ (((routes.erase ri).erase rj).flatMap id))) := by
          rw [List.flatMap_append]
          simp only [List.flatMap_cons, List.flatMap_nil, List.append_nil, id]
          refine (List.perm_append_comm).trans ?_
          rw [List.append_assoc]
        have hnew2 : ((((routes.erase ri).erase rj) ++ [rj ++ ri]).flatMap id).Perm
            (ri ++ (rj ++ (((routes.erase ri).erase rj).flatMap id))) := by
          rw [List.flatMap_append]
          simp only [List.flatMap_cons, List.flatMap_nil, List.append_nil, id]
          refine (List.perm_append_comm).trans ?_
          refine List.Perm.trans (List.Perm.append_right _ List.perm_append_comm) ?_
          rw [List.append_assoc]
        split
        · exact hnew1.trans hbase.symm
        · split
          · exact hnew2.trans hbase.symm
          · exact List.Perm.refl _

end Thesis

namespace Thesis

lemma foldl_cwStep_perm :
    ∀ (prs : List ((Nat × Nat) × Rat)) (routes : List (List Nat)),
      ((prs.foldl cwStep routes).flatMap id).Perm (routes.flatMap id) := by
  intro prs
  induction prs with
  | nil => intro routes; exact List.Perm.refl _
  | cons pr rest ih =>
    intro routes
    rw [List.foldl_cons]
    exact (ih (cwStep routes pr)).trans (cwStep_flatMap_perm routes pr)

lemma flatMap_singleton_map (l : List Nat) :
    ((l.map (fun t => [t])).flatMap id) = l := by
  induction l with
  | nil => rfl
  | cons a t ih => simp only [List.map_cons, List.flatMap_cons, id, List.singleton_append, ih]

lemma map_getD_range {α : Type} (l : List α) (d : α) :
    (List.range l.length).map (fun i => l.getD i d) = l := by
  induction l with
  | nil => rfl
  | cons a t ih =>
    rw [List.length_cons, List.range_succ_eq_map, List.map_cons, List.map_map]
    have h1 : ((fun i => (a :: t).getD i d) ∘ Nat.succ) = (fun i => t.getD i d) := rfl
    rw [h1, ih]
    rfl

/-- C5.  ClarkeWrightSolver.solve always returns a route that starts
and ends with the depot sentinel whose interior is a permutation of the
input occurrence list (duplicates preserved, none lost or duplicated);
the empty input yields exactly [Depot, Depot], and
compute_route_distance of a depot-only route is 0. -/
theorem solve_route_shape (depotDist : Nat → Rat) (itemDist : Nat → Nat → Rat)
    (items : List Nat) :
    (∃ mid, solve depotDist itemDist items = Node.depot :: (mid ++ [Node.depot]) ∧
      mid.Perm (items.map Node.item)) ∧
    solve depotDist itemDist [] = [Node.depot, Node.depot] ∧
    computeRouteDistance itemDist depotDist [Node.depot, Node.depot] = 0 := by
  refine ⟨?_, rfl, rfl⟩
  by_cases hn : items.isEmpty
  · rw [List.isEmpty_iff] at hn
    subst hn
    exact ⟨[], rfl, List.Perm.refl _⟩
  · rw [solve, if_neg (by simpa using hn)]
    refine ⟨((((savingsList depotDist itemDist items).mergeSort
        (fun a b => decide (b.2 ≤ a.2))).foldl cwStep
        ((List.range items.length).map (fun t => [t]))).flatMap id).map
        (fun t => Node.item (items.getD t 0)), rfl, ?_⟩
    have h1 := foldl_cwStep_perm
      ((savingsList depotDist itemDist items).mergeSort (fun a b => decide (b.2 ≤ a.2)))
      ((List.range items.length).map (fun t => [t]))
    rw [flatMap_singleton_map] at h1
    refine (List.Perm.map _ h1).trans ?_
    have h2 : (List.range items.length).map (fun t => Node.item (items.getD t 0)) =
        items.map Node.item := by
      have h3 := congrArg (List.map Node.item) (map_getD_range items 0)
      rw [List.map_map] at h3
      exact h3
    rw [h2]

end Thesis

namespace Thesis

/-- The argmin scan min(range(num_pickers), key=lambda i: picker_loads[i])
of assignment.py: Python min keeps the first element attaining the
minimum. -/
def minLoadIdx (k : Nat) (loads : List Rat) : Nat :=
  (List.range k).foldl
    (fun best i => if loads.getD i 0 < loads.getD best 0 then i else best) 0

/-- max(picker_loads) if picker_loads else 0.0 of assignment.py. -/
def maxLoad (loads : List Rat) : Rat :=
  match loads with
  | [] => 0
  | x :: xs => xs.foldl max x

/-- enumerate(pallet_distances, start=1) of assignment.py. -/
def palletsWithDist (pallet_distances : List Rat) : List (Nat × Rat) :=
  (List.range pallet_distances.length).map (fun i => (i + 1, pallet_distances.getD i 0))

/-- The pallets sorted by distance descending (Python stable sort). -/
def sortPalletsDesc (pallet_distances : List Rat) : List (Nat × Rat) :=
  (palletsWithDist pallet_distances).mergeSort (fun a b => decide (b.2 ≤ a.2))

/-- One assignment step of the LPT loop: give the next pallet to the
picker with the least current load. -/
def assignStep (k : Nat) (acc : List (List Nat) × List Rat) (pd : Nat × Rat) :
    List (List Nat) × List Rat :=
  let idx := minLoadIdx k acc.2
  (acc.1.set idx (acc.1.getD idx [] ++ [pd.1]),
   acc.2.set idx (acc.2.getD idx 0 + pd.2))

/-- The body of picker_assignment once the degenerate cases are out of
the way: sort descending, fold the LPT assignment, take the maximum
load as makespan. -/
def pickerAssignmentCore (pallet_distances : List Rat) (num_pickers : Nat) :
    List (List Nat) × Rat × List Rat :=
  let sorted := sortPalletsDesc pallet_distances
  let init : List (List Nat) × List Rat :=
    (List.replicate num_pickers [], List.replicate num_pickers 0)
  let res := sorted.foldl (assignStep num_pickers) init
  (res.1, maxLoad res.2, res.2)

/-- picker_assignment of assignment.py.  pallet_routes is unused by the
source.  With no pallets the function returns empty assignments for any
picker count; otherwise, with zero pickers, the first loop iteration
raises ValueError from min() over an empty range, modelled as the error
value (with a positive picker count every min() call is over a
nonempty range and the loop is total). -/
def pickerAssignment (pallet_routes : List (List Node)) (pallet_distances : List Rat)
    (num_pickers : Nat) : Except String (List (List Nat) × Rat × List Rat) :=
  if pallet_distances.length = 0 then
    Except.ok (List.replicate num_pickers [], 0, List.replicate num_pickers 0)
  else if num_pickers = 0 then
    Except.error "ValueError: min() arg is an empty sequence"
  else
    Except.ok (pickerAssignmentCore pallet_distances num_pickers)

/-- C10.  With an empty pallet_distances list, picker_assignment
returns num_pickers empty assignment lists, makespan 0.0 and
num_pickers zero loads, without raising, for every picker count; in
particular with zero pickers and no pallets it silently returns
([], 0.0, []). -/
theorem picker_assignment_empty_distances (routes : List (List Node)) (k : Nat) :
    pickerAssignment routes [] k =
      Except.ok (List.replicate k [], 0, List.replicate k 0) ∧
    pickerAssignment routes [] 0 = Except.ok ([], 0, []) := by
  constructor <;> rfl

/-- C9.  The code does not fail fast on a zero picker count: with zero
pickers and no pallets picker_assignment silently returns empty
assignments (and with pallets present it raises only from the min()
call after the sorting work, not an invalid-configuration check before
any work; run_pipeline performs no picker-count validation either). -/
theorem picker_assignment_zero_pickers_silent :
    pickerAssignment [] [] 0 = Except.ok ([], 0, []) ∧
    pickerAssignment [] [5] 0 =
      Except.error "ValueError: min() arg is an empty sequence" := by
  constructor <;> rfl

end Thesis

namespace Thesis

lemma minLoadIdx_succ (k : Nat) (loads : List Rat) :
    minLoadIdx (k + 1) loads =
      (if loads.getD k 0 < loads.getD (minLoadIdx k loads) 0 then k
       else minLoadIdx k loads) := by
  unfold minLoadIdx
  rw [List.range_succ, List.foldl_append, List.foldl_cons, List.foldl_nil]

/-- The argmin scan returns an index below the picker count that
attains the minimum load, and every smaller index has a strictly larger
load (first-minimum tie-breaking, like Python min). -/
lemma minLoadIdx_spec (k : Nat) (hk : 0 < k) (loads : List Rat) :
    minLoadIdx k loads < k ∧
    (∀ j, j < k → loads.getD (minLoadIdx k loads) 0 ≤ loads.getD j 0) ∧
    (∀ j, j < minLoadIdx k loads →
      loads.getD (minLoadIdx k loads) 0 < loads.getD j 0) := by
  induction k with
  | zero => exact absurd hk (by simp)
  | succ k ih =>
    rw [minLoadIdx_succ]
    by_cases hk0 : k = 0
    · subst hk0
      have h0 : minLoadIdx 0 loads = 0 := rfl
      rw [h0]
      split
      · rename_i hlt
        exact absurd hlt (lt_irrefl _)
      · exact ⟨Nat.zero_lt_one, by
          intro j hj
          interval_cases j
          exact le_refl _, by
          intro j hj
          exact absurd hj (by simp)⟩
    · have hkpos : 0 < k := Nat.pos_of_ne_zero hk0
      rcases ih hkpos with ⟨hlt, hmin, hfirst⟩
      split
      · rename_i hnew
        refine ⟨Nat.lt_succ_self k, ?_, ?_⟩
        · intro j hj
          rcases Nat.lt_succ_iff_lt_or_eq.1 hj with hj1 | hj1
          · exact le_of_lt (lt_of_lt_of_le hnew (hmin j hj1))
          · subst hj1; exact le_refl _
        · intro j hj
          exact lt_of_lt_of_le hnew (hmin j hj)
      · rename_i hnew
        push_neg at hnew
        refine ⟨Nat.lt_succ_of_lt hlt, ?_, hfirst⟩
        intro j hj
        rcases Nat.lt_succ_iff_lt_or_eq.1 hj with hj1 | hj1
        · exact hmin j hj1
        · subst hj1; exact hnew

lemma flatMap_set_append (l : List (List Nat)) (i : Nat) (x : Nat) (h : i < l.length) :
    ((l.set i (l.getD i [] ++ [x])).flatMap id).Perm ((l.flatMap id) ++ [x]) := by
  induction l generalizing i with
  | nil => exact absurd h (by simp)
  | cons a t ih =>
    cases i with
    | zero =>
      simp only [List.set_cons_zero, List.getD_cons_zero, List.flatMap_cons, id]
      rw [List.append_assoc, List.append_assoc]
      exact List.Perm.append_left a List.perm_append_comm
    | succ j =>
      have hj : j < t.length := Nat.lt_of_succ_lt_succ h
      simp only [List.set_cons_succ, List.getD_cons_succ, List.flatMap_cons, id]
      rw [List.append_assoc]
      exact List.Perm.append_left a (ih j hj)

end Thesis

namespace Thesis

lemma getD_set_self {α : Type} (l : List α) (i : Nat) (x d : α) (h : i < l.length) :
    (l.set i x).getD i d = x := by
  rw [List.getD_eq_getElem?_getD, List.getElem?_set_self h]
  rfl

lemma getD_set_ne {α : Type} (l : List α) (i j : Nat) (x d : α) (h : i ≠ j) :
    (l.set i x).getD j d = l.getD j d := by
  rw [List.getD_eq_getElem?_getD, List.getElem?_set_ne h, ← List.getD_eq_getElem?_getD]

lemma getD_replicate_lt {α : Type} (k i : Nat) (x d : α) (h : i < k) :
    (List.replicate k x).getD i d = x := by
  rw [List.getD_eq_getElem?_getD, List.getElem?_replicate, if_pos h]
  rfl

lemma flatMap_replicate_nil (k : Nat) :
    ((List.replicate k ([] : List Nat)).flatMap id) = [] := by
  induction k with
  | zero => rfl
  | succ n ih => simp only [List.replicate_succ, List.flatMap_cons, ih, id, List.nil_append]

lemma foldl_max_spec (xs : List Rat) :
    ∀ x, (xs.foldl max x = x ∨ xs.foldl max x ∈ xs) ∧ x ≤ xs.foldl max x ∧
      (∀ y ∈ xs, y ≤ xs.foldl max x) := by
  induction xs with
  | nil =>
    intro x
    exact ⟨Or.inl rfl, le_refl x, by intro y hy; cases hy⟩
  | cons a t ih =>
    intro x
    rcases ih (max x a) with ⟨hmem, hle, hall⟩
    rw [List.foldl_cons]
    refine ⟨?_, le_trans (le_max_left x a) hle, ?_⟩
    · rcases hmem with hm | hm
      · rcases max_choice x a with hc | hc
        · exact Or.inl (hm.trans hc)
        · exact Or.inr (by rw [hm, hc]; exact List.mem_cons_self a t)
      · exact Or.inr (List.mem_cons_of_mem a hm)
    · intro y hy
      rcases List.mem_cons.1 hy with hy1 | hy1
      · subst hy1; exact le_trans (le_max_right x y) hle
      · exact hall y hy1

lemma maxLoad_spec (l : List Rat) (h : l ≠ []) :
    maxLoad l ∈ l ∧ ∀ x ∈ l, x ≤ maxLoad l := by
  cases l with
  | nil => exact absurd rfl h
  | cons a t =>
    rcases foldl_max_spec t a with ⟨hmem, hle, hall⟩
    have hred : maxLoad (a :: t) = t.foldl max a := rfl
    rw [hred]
    refine ⟨?_, ?_⟩
    · rcases hmem with hm | hm
      · rw [hm]; exact List.mem_cons_self a t
      · exact List.mem_cons_of_mem a hm
    · intro x hx
      rcases List.mem_cons.1 hx with hx1 | hx1
      · subst hx1; exact hle
      · exact hall x hx1

end Thesis

namespace Thesis

/-- Invariant of the LPT assignment fold: picker list lengths stay at
the picker count, the flattened assignments collect exactly the
processed pallet ids, and each load is the summed distance of the
pallets assigned to that picker. -/
lemma assignLoop_spec (k : Nat) (hk : 0 < k) (dists : List Rat) :
    ∀ (prs : List (Nat × Rat)) (acc : List (List Nat) × List Rat),
      (∀ pd ∈ prs, pd.2 = dists.getD (pd.1 - 1) 0) →
      acc.1.length = k → acc.2.length = k →
      (∀ i, i < k → acc.2.getD i 0 =
        ((acc.1.getD i []).map (fun pid => dists.getD (pid - 1) 0)).sum) →
      ((prs.foldl (assignStep k) acc).1.length = k ∧
       (prs.foldl (assignStep k) acc).2.length = k ∧
       (((prs.foldl (assignStep k) acc).1.flatMap id).Perm
         ((acc.1.flatMap id) ++ prs.map Prod.fst)) ∧
       (∀ i, i < k → (prs.foldl (assignStep k) acc).2.getD i 0 =
         (((prs.foldl (assignStep k) acc).1.getD i []).map
           (fun pid => dists.getD (pid - 1) 0)).sum)) := by
  intro prs
  induction prs with
  | nil =>
    intro acc hpr h1 h2 h3
    refine ⟨h1, h2, ?_, h3⟩
    simp
  | cons pd rest ih =>
    intro acc hpr h1 h2 h3
    rw [List.foldl_cons]
    have hidx : minLoadIdx k acc.2 < k := (minLoadIdx_spec k hk acc.2).1
    have hstep1 : (assignStep k acc pd).1.length = k := by
      simp only [assignStep, List.length_set, h1]
    have hstep2 : (assignStep k acc pd).2.length = k := by
      simp only [assignStep, List.length_set, h2]
    have hstep3 : ∀ i, i < k → (assignStep k acc pd).2.getD i 0 =
        (((assignStep k acc pd).1.getD i []).map
          (fun pid => dists.getD (pid - 1) 0)).sum := by
      intro i hi
      simp only [assignStep]
      by_cases hii : minLoadIdx k acc.2 = i
      · rw [hii, getD_set_self _ _ _ _ (by rw [h2]; exact hi),
          getD_set_self _ _ _ _ (by rw [h1]; exact hi)]
        rw [List.map_append, List.sum_append, ← h3 i hi, ← hii]
        simp [hpr pd (List.mem_cons_self pd rest)]
      · rw [getD_set_ne _ _ _ _ _ hii, getD_set_ne _ _ _ _ _ hii]
        exact h3 i hi
    rcases ih (assignStep k acc pd)
        (fun q hq => hpr q (List.mem_cons_of_mem pd hq)) hstep1 hstep2 hstep3 with
      ⟨g1, g2, g3, g4⟩
    refine ⟨g1, g2, ?_, g4⟩
    refine g3.trans ?_
    have hflat : (((assignStep k acc pd).1.flatMap id)).Perm ((acc.1.flatMap id) ++ [pd.1]) := by
      simp only [assignStep]
      exact flatMap_set_append acc.1 (minLoadIdx k acc.2) pd.1 (by rw [h1]; exact hidx)
    refine (List.Perm.append_right _ hflat).trans ?_
    rw [List.append_assoc, List.singleton_append, List.map_cons]

end Thesis

namespace Thesis

lemma sortPalletsDesc_mem_dist {dists : List Rat} {pd : Nat × Rat}
    (h : pd ∈ sortPalletsDesc dists) : pd.2 = dists.getD (pd.1 - 1) 0 := by
  unfold sortPalletsDesc at h
  rw [List.mem_mergeSort] at h
  unfold palletsWithDist at h
  rcases List.mem_map.1 h with ⟨i, -, rfl⟩
  simp

lemma sortPalletsDesc_map_fst_perm (dists : List Rat) :
    ((sortPalletsDesc dists).map Prod.fst).Perm
      ((List.range dists.length).map (fun i => i + 1)) := by
  refine (List.Perm.map Prod.fst (List.mergeSort_perm _ _)).trans ?_
  unfold palletsWithDist
  rw [List.map_map]
  exact List.Perm.refl _

lemma sortPalletsDesc_sorted (dists : List Rat) :
    List.Pairwise (fun p q : Nat × Rat => q.2 ≤ p.2) (sortPalletsDesc dists) := by
  have h := @List.sorted_mergeSort (Nat × Rat)
    (fun a b : Nat × Rat => decide (b.2 ≤ a.2))
    (fun a b c hab hbc => by
      simp only [decide_eq_true_eq] at *
      exact le_trans hbc hab)
    (fun a b => by
      simp only [Bool.or_eq_true, decide_eq_true_eq]
      exact le_total b.2 a.2)
    (palletsWithDist dists)
  refine h.imp ?_
  intro a b hab
  simpa using hab

/-- C6.  picker_assignment with a positive picker count processes the
pallets in descending distance order (sortPalletsDesc is sorted
descending), always gives the next pallet to the picker of least
current load with ties broken by lowest picker index (minLoadIdx), and
its result satisfies: every pallet id 1..n appears in exactly one
picker list, each picker load is the sum of the distances of its
assigned pallets, and the makespan is the maximum picker load. -/
theorem picker_assignment_lpt (routes : List (List Node)) (dists : List Rat)
    (k : Nat) (hk : 0 < k) :
    ∃ a m loads, pickerAssignment routes dists k = Except.ok (a, m, loads) ∧
      a.length = k ∧ loads.length = k ∧
      ((a.flatMap id).Perm ((List.range dists.length).map (fun i => i + 1))) ∧
      (∀ i, i < k → loads.getD i 0 =
        ((a.getD i []).map (fun pid => dists.getD (pid - 1) 0)).sum) ∧
      m ∈ loads ∧ (∀ x ∈ loads, x ≤ m) ∧
      List.Pairwise (fun p q : Nat × Rat => q.2 ≤ p.2) (sortPalletsDesc dists) ∧
      (∀ loads2 : List Rat, ∀ j, j < k →
        loads2.getD (minLoadIdx k loads2) 0 ≤ loads2.getD j 0) ∧
      (∀ loads2 : List Rat, ∀ j, j < minLoadIdx k loads2 →
        loads2.getD (minLoadIdx k loads2) 0 < loads2.getD j 0) := by
  by_cases hempty : dists.length = 0
  · have hnil : dists = [] := List.length_eq_zero.1 hempty
    subst hnil
    refine ⟨List.replicate k [], 0, List.replicate k 0, ?_, ?_, ?_, ?_, ?_, ?_, ?_, ?_, ?_, ?_⟩
    · rfl
    · exact List.length_replicate k []
    · exact List.length_replicate k 0
    · rw [flatMap_replicate_nil]
      exact List.Perm.refl _
    · intro i hi
      rw [getD_replicate_lt k i _ _ hi, getD_replicate_lt k i _ _ hi]
      rfl
    · exact List.mem_replicate.2 ⟨Nat.pos_iff_ne_zero.1 hk, rfl⟩
    · intro x hx
      rw [(List.mem_replicate.1 hx).2]
    · exact sortPalletsDesc_sorted []
    · intro loads2 j hj
      exact (minLoadIdx_spec k hk loads2).2.1 j hj
    · intro loads2 j hj
      exact (minLoadIdx_spec k hk loads2).2.2 j hj
  · have hres : pickerAssignment routes dists k =
        Except.ok (pickerAssignmentCore dists k) := by
      unfold pickerAssignment
      rw [if_neg hempty, if_neg (Nat.pos_iff_ne_zero.1 hk)]
    have hinit1 : (List.replicate k ([] : List Nat)).length = k := List.length_replicate k []
    have hinit2 : (List.replicate k (0 : Rat)).length = k := List.length_replicate k 0
    have hinit3 : ∀ i, i < k → (List.replicate k (0 : Rat)).getD i 0 =
        (((List.replicate k ([] : List Nat)).getD i []).map
          (fun pid => dists.getD (pid - 1) 0)).sum := by
      intro i hi
      rw [getD_replicate_lt k i _ _ hi, getD_replicate_lt k i _ _ hi]
      rfl
    rcases assignLoop_spec k hk dists (sortPalletsDesc dists)
        (List.replicate k [], List.replicate k 0)
        (fun pd hpd => sortPalletsDesc_mem_dist hpd) hinit1 hinit2 hinit3 with
      ⟨g1, g2, g3, g4⟩
    set res := (sortPalletsDesc dists).foldl (assignStep k)
      (List.replicate k [], List.replicate k 0) with hresdef
    have hne : res.2 ≠ [] := by
      intro hcon
      rw [hcon] at g2
      simp at g2
      omega
    rcases maxLoad_spec res.2 hne with ⟨hmem, hub⟩
    refine ⟨res.1, maxLoad res.2, res.2, ?_, g1, g2, ?_, g4, hmem, hub,
      sortPalletsDesc_sorted dists, ?_, ?_⟩
    · rw [hres]
      rfl
    · refine g3.trans ?_
      rw [flatMap_replicate_nil, List.nil_append]
      exact sortPalletsDesc_map_fst_perm dists
    · intro loads2 j hj
      exact (minLoadIdx_spec k hk loads2).2.1 j hj
    · intro loads2 j hj
      exact (minLoadIdx_spec k hk loads2).2.2 j hj

/-- Witness for picker_assignment_lpt on the spec scenario of two
pallets with distances [10, 4] and two pickers. -/
theorem picker_assignment_lpt_witness :
    0 < 2 ∧
    (∃ a m loads, pickerAssignment [] [(10 : Rat), 4] 2 = Except.ok (a, m, loads) ∧
      a.length = 2 ∧ loads.length = 2 ∧
      ((a.flatMap id).Perm ((List.range ([(10 : Rat), 4].length)).map (fun i => i + 1))) ∧
      (∀ i, i < 2 → loads.getD i 0 =
        ((a.getD i []).map (fun pid => [(10 : Rat), 4].getD (pid - 1) 0)).sum) ∧
      m ∈ loads ∧ (∀ x ∈ loads, x ≤ m) ∧
      List.Pairwise (fun p q : Nat × Rat => q.2 ≤ p.2) (sortPalletsDesc [(10 : Rat), 4]) ∧
      (∀ loads2 : List Rat, ∀ j, j < 2 →
        loads2.getD (minLoadIdx 2 loads2) 0 ≤ loads2.getD j 0) ∧
      (∀ loads2 : List Rat, ∀ j, j < minLoadIdx 2 loads2 →
        loads2.getD (minLoadIdx 2 loads2) 0 < loads2.getD j 0)) :=
  ⟨by decide, picker_assignment_lpt [] [(10 : Rat), 4] 2 (by decide)⟩

end Thesis

namespace Thesis

/-- The environment of the annealing loops: the wall-clock check, the
random neighbor draw of swap_two_orders_between_batches, the Metropolis
acceptance draw (random.random() < exp(-delta/T), whose Boolean outcome
is all the loop consumes), and try_repack_single_batch, whose defining
module is not part of the sources (only its import site is), so it is
kept as a parameter. -/
structure SAEnv where
  timeUp : Nat → Bool
  neighbor : Nat → List (List Nat) → Option (List (List Nat) × Nat × Nat)
  acceptWorse : Nat → Bool
  repackOk : List Nat → Bool

/-- The 1e-12 tolerance of the best-seen updates. -/
def saTolerance : Rat := 1 / 1000000000000

/-- The route and distance of one batch: collect the items of its
orders, solve with Clarke-Wright, and price the route (the four-line
block repeated for b1 and b2 in sa_improvement_routing.py). -/
def routeOfBatch (depotDist : Nat → Rat) (itemDist : Nat → Nat → Rat)
    (orders : Nat → List Nat) (batch : List Nat) : List Node × Rat :=
  let route := solve depotDist itemDist (batch.flatMap orders)
  (route, computeRouteDistance itemDist depotDist route)

/-- The state of simulated_annealing_batch_routing between iterations. -/
structure SARoutingState where
  currentOrders : List (List Nat)
  currentRoutes : List (List Node)
  currentDistances : List Rat
  bestTotal : Rat
  bestOrders : List (List Nat)
  bestRoutes : List (List Node)
  bestDistances : List Rat
  T : Rat
  moveCounter : Nat
  improvedInPlateau : Bool
deriving Repr

/-- One iteration of the routing-objective annealing loop, after the
wall-clock check: draw a neighbor, gate on repacking both affected
batches, re-route exactly those two batches, accept by the Metropolis
rule on the pair-distance delta, and on acceptance update the current
solution and possibly the best-seen snapshot. -/
def saIterRouting (env : SAEnv) (depotDist : Nat → Rat) (itemDist : Nat → Nat → Rat)
    (orders : Nat → List Nat) (s0 : SARoutingState) : SARoutingState :=
  let s := { s0 with moveCounter := s0.moveCounter + 1 }
  match env.neighbor s.moveCounter s.currentOrders with
  | none => s
  | some nb =>
    let newOrders := nb.1
    let b1 := nb.2.1
    let b2 := nb.2.2
    if !(env.repackOk (newOrders.getD b1 [])) then s
    else if !(env.repackOk (newOrders.getD b2 [])) then s
    else
      let rd1 := routeOfBatch depotDist itemDist orders (newOrders.getD b1 [])
      let rd2 := routeOfBatch depotDist itemDist orders (newOrders.getD b2 [])
      let newRoutes := (s.currentRoutes.set b1 rd1.1).set b2 rd2.1
      let newDistances := (s.currentDistances.set b1 rd1.2).set b2 rd2.2
      let oldPair := s.currentDistances.getD b1 0 + s.currentDistances.getD b2 0
      let delta := (rd1.2 + rd2.2) - oldPair
      let accepted := if delta < 0 then true else env.acceptWorse s.moveCounter
      if accepted then
        let s1 := { s with currentOrders := newOrders, currentRoutes := newRoutes,
                           currentDistances := newDistances }
        let currentTotal := s1.currentDistances.sum
        if currentTotal < s1.bestTotal - saTolerance then
          { s1 with bestTotal := currentTotal, bestOrders := s1.currentOrders,
                    bestRoutes := s1.currentRoutes, bestDistances := s1.currentDistances,
                    improvedInPlateau := true }
        else s1
      else s

/-- The tuple returned by simulated_annealing_batch_routing (the stats
dict is reduced to the stop reason and the iteration count). -/
structure SARoutingResult where
  orders : List (List Nat)
  routes : List (List Node)
  distances : List Rat
  T0_used : Rat
  stoppedReason : String
  iterations : Nat
deriving Repr

/-- Every return site of the source returns the best-seen snapshot. -/
def mkRoutingResult (T0used : Rat) (reason : String) (s : SARoutingState) : SARoutingResult :=
  ⟨s.bestOrders, s.bestRoutes, s.bestDistances, T0used, reason, s.moveCounter⟩

/-- One plateau (the inner for-loop): before each iteration the
wall-clock budget is checked; exceeding it stops at once with the state
as it stands.  The Boolean records whether the budget fired. -/
def saPlateauRouting (env : SAEnv) (depotDist : Nat → Rat) (itemDist : Nat → Nat → Rat)
    (orders : Nat → List Nat) : Nat → SARoutingState → Bool × SARoutingState
  | 0, s => (false, s)
  | k + 1, s =>
    if env.timeUp s.moveCounter then (true, s)
    else saPlateauRouting env depotDist itemDist orders k
      (saIterRouting env depotDist itemDist orders s)

/-- The outer while-loop of simulated_annealing_batch_routing over
cooling levels, bounded by fuel (the source loop has no intrinsic
bound; every exit path of the source returns the best-seen snapshot,
which mkRoutingResult projects). -/
def saLevelsRouting (env : SAEnv) (depotDist : Nat → Rat) (itemDist : Nat → Nat → Rat)
    (orders : Nat → List Nat) (T0used alpha : Rat) (plateauLen : Nat) :
    Nat → SARoutingState → SARoutingResult
  | 0, s => mkRoutingResult T0used "fuel_exhausted" s
  | fuel + 1, s =>
    if env.timeUp s.moveCounter then mkRoutingResult T0used "time_limit" s
    else
      match saPlateauRouting env depotDist itemDist orders plateauLen
          { s with improvedInPlateau := false } with
      | (true, s1) => mkRoutingResult T0used "time_limit" s1
      | (false, s1) =>
        if !s1.improvedInPlateau then
          mkRoutingResult T0used "no_improvement_in_plateau" s1
        else
          saLevelsRouting env depotDist itemDist orders T0used alpha plateauLen fuel
            { s1 with T := s1.T * alpha }

/-- simulated_annealing_batch_routing: build the initial state from the
initial batching (routes and distances via pallet_route_calculation,
best snapshot initialized to the current solution, fixed T0), then run
the level loop with plateau length K times the batch count. -/
def simulatedAnnealingBatchRouting (env : SAEnv) (depotDist : Nat → Rat)
    (itemDist : Nat → Nat → Rat) (orders : Nat → List Nat)
    (initialOrders : List (List Nat)) (T0 alpha : Rat) (K fuel : Nat) : SARoutingResult :=
  let rd := initialOrders.map (routeOfBatch depotDist itemDist orders)
  let s0 : SARoutingState :=
    { currentOrders := initialOrders,
      currentRoutes := rd.map Prod.fst,
      currentDistances := rd.map Prod.snd,
      bestTotal := (rd.map Prod.snd).sum,
      bestOrders := initialOrders,
      bestRoutes := rd.map Prod.fst,
      bestDistances := rd.map Prod.snd,
      T := T0, moveCounter := 0, improvedInPlateau := false }
  saLevelsRouting env depotDist itemDist orders T0 alpha (K * initialOrders.length) fuel s0

lemma saIterRouting_best_mono (env : SAEnv) (depotDist : Nat → Rat)
    (itemDist : Nat → Nat → Rat) (orders : Nat → List Nat) (s : SARoutingState) :
    (saIterRouting env depotDist itemDist orders s).bestTotal ≤ s.bestTotal := by
  simp only [saIterRouting]
  cases env.neighbor (s.moveCounter + 1) s.currentOrders with
  | none => exact le_refl s.bestTotal
  | some nb =>
    dsimp only
    repeat' split
    all_goals
      first
      | exact le_refl s.bestTotal
      | · rename_i himp
          dsimp only at himp ⊢
          have htol : (0 : Rat) < saTolerance := by norm_num [saTolerance]
          linarith

lemma saPlateauRouting_best_mono (env : SAEnv) (depotDist : Nat → Rat)
    (itemDist : Nat → Nat → Rat) (orders : Nat → List Nat) :
    ∀ (k : Nat) (s : SARoutingState),
      (saPlateauRouting env depotDist itemDist orders k s).2.bestTotal ≤ s.bestTotal := by
  intro k
  induction k with
  | zero => intro s; exact le_refl _
  | succ k ih =>
    intro s
    rw [saPlateauRouting]
    split
    · exact le_refl _
    · exact le_trans (ih _) (saIterRouting_best_mono env depotDist itemDist orders s)

lemma saLevelsRouting_returns_best (env : SAEnv) (depotDist : Nat → Rat)
    (itemDist : Nat → Nat → Rat) (orders : Nat → List Nat)
    (T0used alpha : Rat) (plateauLen : Nat) :
    ∀ (fuel : Nat) (s : SARoutingState),
      ∃ (reason : String) (s1 : SARoutingState),
        saLevelsRouting env depotDist itemDist orders T0used alpha plateauLen fuel s =
          mkRoutingResult T0used reason s1 ∧ s1.bestTotal ≤ s.bestTotal := by
  intro fuel
  induction fuel with
  | zero => intro s; exact ⟨"fuel_exhausted", s, rfl, le_refl _⟩
  | succ fuel ih =>
    intro s
    rw [saLevelsRouting]
    split
    · exact ⟨"time_limit", s, rfl, le_refl _⟩
    · cases hp : saPlateauRouting env depotDist itemDist orders plateauLen
          { s with improvedInPlateau := false } with
      | mk fired s1 =>
        have hmono : s1.bestTotal ≤ s.bestTotal := by
          have := saPlateauRouting_best_mono env depotDist itemDist orders plateauLen
            { s with improvedInPlateau := false }
          rw [hp] at this
          exact this
        cases fired with
        | true => exact ⟨"time_limit", s1, rfl, hmono⟩
        | false =>
          dsimp only
          split
          · exact ⟨"no_improvement_in_plateau", s1, rfl, hmono⟩
          · rcases ih { s1 with T := s1.T * alpha } with ⟨reason, s2, heq, hle⟩
            exact ⟨reason, s2, heq, le_trans hle hmono⟩

end Thesis

namespace Thesis

/-- The state of simulated_annealing_batch_makespan. -/
structure SAMakespanState where
  currentOrders : List (List Nat)
  currentRoutes : List (List Node)
  currentDistances : List Rat
  currentAssignments : List (List Nat)
  currentLoads : List Rat
  currentMakespan : Rat
  bestOrders : List (List Nat)
  bestRoutes : List (List Node)
  bestDistances : List Rat
  bestAssignments : List (List Nat)
  bestLoads : List Rat
  bestMakespan : Rat
  T : Rat
  moveCounter : Nat
  improvedInPlateau : Bool
deriving Repr

/-- One iteration of the makespan-objective annealing loop: like the
routing variant, but the delta is the change of the full picker
assignment makespan recomputed over all updated distances (the source
calls picker_assignment, which for the positive picker counts of this
loop is the total core). -/
def saIterMakespan (env : SAEnv) (depotDist : Nat → Rat) (itemDist : Nat → Nat → Rat)
    (orders : Nat → List Nat) (numPickers : Nat) (s0 : SAMakespanState) : SAMakespanState :=
  let s := { s0 with moveCounter := s0.moveCounter + 1 }
  match env.neighbor s.moveCounter s.currentOrders with
  | none => s
  | some nb =>
    let newOrders := nb.1
    let b1 := nb.2.1
    let b2 := nb.2.2
    if !(env.repackOk (newOrders.getD b1 [])) then s
    else if !(env.repackOk (newOrders.getD b2 [])) then s
    else
      let rd1 := routeOfBatch depotDist itemDist orders (newOrders.getD b1 [])
      let rd2 := routeOfBatch depotDist itemDist orders (newOrders.getD b2 [])
      let newRoutes := (s.currentRoutes.set b1 rd1.1).set b2 rd2.1
      let newDistances := (s.currentDistances.set b1 rd1.2).set b2 rd2.2
      let pa := pickerAssignmentCore newDistances numPickers
      let delta := pa.2.1 - s.currentMakespan
      let accepted := if delta < 0 then true else env.acceptWorse s.moveCounter
      if accepted then
        let s1 := { s with currentOrders := newOrders, currentRoutes := newRoutes,
                           currentDistances := newDistances,
                           currentAssignments := pa.1, currentLoads := pa.2.2,
                           currentMakespan := pa.2.1 }
        if s1.currentMakespan < s1.bestMakespan - saTolerance then
          { s1 with bestMakespan := s1.currentMakespan, bestOrders := s1.currentOrders,
                    bestRoutes := s1.currentRoutes, bestDistances := s1.currentDistances,
                    bestAssignments := s1.currentAssignments, bestLoads := s1.currentLoads,
                    improvedInPlateau := true }
        else s1
      else s

/-- The tuple returned by simulated_annealing_batch_makespan. -/
structure SAMakespanResult where
  orders : List (List Nat)
  routes : List (List Node)
  distances : List Rat
  assignments : List (List Nat)
  loads : List Rat
  makespan : Rat
  T0_used : Rat
  stoppedReason : String
  iterations : Nat
deriving Repr

/-- Every return site of the makespan variant also returns the
best-seen snapshot. -/
def mkMakespanResult (T0used : Rat) (reason : String) (s : SAMakespanState) : SAMakespanResult :=
  ⟨s.bestOrders, s.bestRoutes, s.bestDistances, s.bestAssignments, s.bestLoads,
   s.bestMakespan, T0used, reason, s.moveCounter⟩

/-- One plateau of the makespan variant. -/
def saPlateauMakespan (env : SAEnv) (depotDist : Nat → Rat) (itemDist : Nat → Nat → Rat)
    (orders : Nat → List Nat) (numPickers : Nat) :
    Nat → SAMakespanState → Bool × SAMakespanState
  | 0, s => (false, s)
  | k + 1, s =>
    if env.timeUp s.moveCounter then (true, s)
    else saPlateauMakespan env depotDist itemDist orders numPickers k
      (saIterMakespan env depotDist itemDist orders numPickers s)

/-- The outer cooling loop of simulated_annealing_batch_makespan. -/
def saLevelsMakespan (env : SAEnv) (depotDist : Nat → Rat) (itemDist : Nat → Nat → Rat)
    (orders : Nat → List Nat) (numPickers : Nat) (T0used alpha : Rat) (plateauLen : Nat) :
    Nat → SAMakespanState → SAMakespanResult
  | 0, s => mkMakespanResult T0used "fuel_exhausted" s
  | fuel + 1, s =>
    if env.timeUp s.moveCounter then mkMakespanResult T0used "time_limit" s
    else
      match saPlateauMakespan env depotDist itemDist orders numPickers plateauLen
          { s with improvedInPlateau := false } with
      | (true, s1) => mkMakespanResult T0used "time_limit" s1
      | (false, s1) =>
        if !s1.improvedInPlateau then
          mkMakespanResult T0used "no_improvement_in_plateau" s1
        else
          saLevelsMakespan env depotDist itemDist orders numPickers T0used alpha plateauLen fuel
            { s1 with T := s1.T * alpha }

lemma saIterMakespan_best_mono (env : SAEnv) (depotDist : Nat → Rat)
    (itemDist : Nat → Nat → Rat) (orders : Nat → List Nat) (numPickers : Nat)
    (s : SAMakespanState) :
    (saIterMakespan env depotDist itemDist orders numPickers s).bestMakespan ≤
      s.bestMakespan := by
  simp only [saIterMakespan]
  cases env.neighbor (s.moveCounter + 1) s.currentOrders with
  | none => exact le_refl s.bestMakespan
  | some nb =>
    dsimp only
    repeat' split
    all_goals
      first
      | exact le_refl s.bestMakespan
      | · rename_i himp
          dsimp only at himp ⊢
          have htol : (0 : Rat) < saTolerance := by norm_num [saTolerance]
          linarith

lemma saPlateauMakespan_best_mono (env : SAEnv) (depotDist : Nat → Rat)
    (itemDist : Nat → Nat → Rat) (orders : Nat → List Nat) (numPickers : Nat) :
    ∀ (k : Nat) (s : SAMakespanState),
      (saPlateauMakespan env depotDist itemDist orders numPickers k s).2.bestMakespan ≤
        s.bestMakespan := by
  intro k
  induction k with
  | zero => intro s; exact le_refl _
  | succ k ih =>
    intro s
    rw [saPlateauMakespan]
    split
    · exact le_refl _
    · exact le_trans (ih _) (saIterMakespan_best_mono env depotDist itemDist orders numPickers s)

lemma saLevelsMakespan_returns_best (env : SAEnv) (depotDist : Nat → Rat)
    (itemDist : Nat → Nat → Rat) (orders : Nat → List Nat) (numPickers : Nat)
    (T0used alpha : Rat) (plateauLen : Nat) :
    ∀ (fuel : Nat) (s : SAMakespanState),
      ∃ (reason : String) (s1 : SAMakespanState),
        saLevelsMakespan env depotDist itemDist orders numPickers T0used alpha
            plateauLen fuel s =
          mkMakespanResult T0used reason s1 ∧ s1.bestMakespan ≤ s.bestMakespan := by
  intro fuel
  induction fuel with
  | zero => intro s; exact ⟨"fuel_exhausted", s, rfl, le_refl _⟩
  | succ fuel ih =>
    intro s
    rw [saLevelsMakespan]
    split
    · exact ⟨"time_limit", s, rfl, le_refl _⟩
    · cases hp : saPlateauMakespan env depotDist itemDist orders numPickers plateauLen
          { s with improvedInPlateau := false } with
      | mk fired s1 =>
        have hmono : s1.bestMakespan ≤ s.bestMakespan := by
          have := saPlateauMakespan_best_mono env depotDist itemDist orders numPickers
            plateauLen { s with improvedInPlateau := false }
          rw [hp] at this
          exact this
        cases fired with
        | true => exact ⟨"time_limit", s1, rfl, hmono⟩
        | false =>
          dsimp only
          split
          · exact ⟨"no_improvement_in_plateau", s1, rfl, hmono⟩
          · rcases ih { s1 with T := s1.T * alpha } with ⟨reason, s2, heq, hle⟩
            exact ⟨reason, s2, heq, le_trans hle hmono⟩

end Thesis

namespace Thesis

/-- C7: throughout any run of the simulated-annealing optimizer — for
the routing-objective variant and the makespan-objective variant alike,
over any oracle for the random draws, the repack feasibility test and
the wall-clock — the best-seen objective value never increases across a
single iteration, across a whole plateau, or across the outer cooling
loop, and every exit of the outer loop (wall-clock budget exceeded
before a level or inside a plateau, plateau without improvement, or
fuel exhaustion) returns the best-seen snapshot of a state whose best
objective is at most the starting one, never the current exploration
state; in particular the full routing run returns a best total at most
the total distance of the initial batching. -/
theorem sa_best_monotone_returns_best (env : SAEnv) (depotDist : Nat → Rat)
    (itemDist : Nat → Nat → Rat) (orders : Nat → List Nat) (numPickers : Nat)
    (T0used alpha : Rat) (plateauLen : Nat) :
    (∀ s : SARoutingState,
       (saIterRouting env depotDist itemDist orders s).bestTotal ≤ s.bestTotal) ∧
    (∀ (k : Nat) (s : SARoutingState),
       (saPlateauRouting env depotDist itemDist orders k s).2.bestTotal ≤ s.bestTotal) ∧
    (∀ (fuel : Nat) (s : SARoutingState),
       ∃ (reason : String) (s1 : SARoutingState),
         saLevelsRouting env depotDist itemDist orders T0used alpha plateauLen fuel s =
           mkRoutingResult T0used reason s1 ∧ s1.bestTotal ≤ s.bestTotal) ∧
    (∀ (initialOrders : List (List Nat)) (T0 : Rat) (K fuel : Nat),
       ∃ (reason : String) (s1 : SARoutingState),
         simulatedAnnealingBatchRouting env depotDist itemDist orders initialOrders
             T0 alpha K fuel =
           mkRoutingResult T0 reason s1 ∧
         s1.bestTotal ≤
           ((initialOrders.map (routeOfBatch depotDist itemDist orders)).map Prod.snd).sum) ∧
    (∀ s : SAMakespanState,
       (saIterMakespan env depotDist itemDist orders numPickers s).bestMakespan ≤
         s.bestMakespan) ∧
    (∀ (k : Nat) (s : SAMakespanState),
       (saPlateauMakespan env depotDist itemDist orders numPickers k s).2.bestMakespan ≤
         s.bestMakespan) ∧
    (∀ (fuel : Nat) (s : SAMakespanState),
       ∃ (reason : String) (s1 : SAMakespanState),
         saLevelsMakespan env depotDist itemDist orders numPickers T0used alpha
             plateauLen fuel s =
           mkMakespanResult T0used reason s1 ∧ s1.bestMakespan ≤ s.bestMakespan) := by
  refine ⟨saIterRouting_best_mono env depotDist itemDist orders,
          saPlateauRouting_best_mono env depotDist itemDist orders,
          saLevelsRouting_returns_best env depotDist itemDist orders T0used alpha plateauLen,
          ?_,
          saIterMakespan_best_mono env depotDist itemDist orders numPickers,
          saPlateauMakespan_best_mono env depotDist itemDist orders numPickers,
          saLevelsMakespan_returns_best env depotDist itemDist orders numPickers T0used alpha
            plateauLen⟩
  intro initialOrders T0 K fuel
  rcases saLevelsRouting_returns_best env depotDist itemDist orders T0 alpha
      (K * initialOrders.length) fuel
      { currentOrders := initialOrders,
        currentRoutes := (initialOrders.map (routeOfBatch depotDist itemDist orders)).map Prod.fst,
        currentDistances :=
          (initialOrders.map (routeOfBatch depotDist itemDist orders)).map Prod.snd,
        bestTotal := ((initialOrders.map (routeOfBatch depotDist itemDist orders)).map Prod.snd).sum,
        bestOrders := initialOrders,
        bestRoutes := (initialOrders.map (routeOfBatch depotDist itemDist orders)).map Prod.fst,
        bestDistances :=
          (initialOrders.map (routeOfBatch depotDist itemDist orders)).map Prod.snd,
        T := T0, moveCounter := 0, improvedInPlateau := false }
    with ⟨reason, s1, heq, hle⟩
  exact ⟨reason, s1, heq, hle⟩

end Thesis
